import Mathlib

/-!
Verification of the auto-reply scheduling and dispatch pipeline of a
Google-Business-review auto-reply backend.

The development shallowly embeds the pipeline code:
  * `src/services/autoReplyService.js`   (settings normalizer, task
    synchronizer, reply generator stage, dispatch stage, per-user run,
    cycle scheduler, manual trigger),
  * `src/services/googleApiService.js`   (paginated review fetch,
    batched per-location fetch),
  * `src/controllers/autoReplyController.js` (manual retry endpoint),
  * the generator post-processing of the reply-text generator service,
  * `src/utils/constants.js`.

Conventions of the embedding:
  * JavaScript numbers that hold epoch-milliseconds are `Int`;
    `Date.now()` and every `new Date()` taken during one operation are
    passed in as an explicit `now : Int` parameter.
  * A JavaScript field that may be `undefined`/`null` is an `Option`;
    string truthiness is `"" = falsy`, number truthiness is `0 = falsy`.
  * External calls (Mongo, Google, OpenAI, websockets) are oracles:
    their outcomes are explicit parameters (`Except`, outcome
    functions).  Fire-and-forget websocket emissions and cache clears
    have no effect on the data the claims are about and are omitted.
  * Mongo's `updateOne`/`findByIdAndUpdate` update the first matching
    document: embedded as `updateFirst` on the task list.  `insertMany`
    appends; fresh `_id`s are modelled by a `nextId` counter.
-/

namespace AutoReply

/-- Task lifecycle statuses, from the `status` enum of
`src/models/AutoReplyTask.js`. -/
inductive Status where
  | detected
  | scheduled
  | sent
  | generationFailed
  | deliveryFailed
  | skipped
deriving DecidableEq, Repr

/-- Generator analysis snapshot stored on a task (`analysis` subdocument of
`AutoReplyTask`). -/
structure Analysis where
  summary : String
  tone : String
  sentiment : String
  addressedName : String
deriving DecidableEq, Repr

/-- One `AutoReplyTask` document, restricted to the fields the pipeline
reads or writes.  `id` stands for the Mongo `_id`; `createdAt` for the
`timestamps: true` creation stamp. -/
structure Task where
  id : Nat
  userId : Nat
  reviewName : String
  locationName : String
  reviewerName : String
  comment : String
  tone : String
  status : Status
  scheduledFor : Option Int
  generatedReply : Option String
  sentAt : Option Int
  error : Option String
  lastTriedAt : Option Int
  ratingValue : Int
  sentiment : String
  customerName : Option String
  analysis : Option Analysis
  createdAt : Int
deriving DecidableEq, Repr

/-- A fetched Google review, restricted to the fields the pipeline reads.
`reviewReply` is `some` exactly when the review already carries an external
reply (the code only tests truthiness of `review.reviewReply` and copies its
`comment`). -/
structure Review where
  name : String
  reviewId : Option String
  starRating : String
  comment : Option String
  reviewerName : Option String
  reviewReply : Option String
  createTime : Option Int
  updateTime : Option Int
deriving DecidableEq, Repr

/-- A Google location as returned by `getLocations` (readMask `name,title`). -/
structure Location where
  name : String
  title : String
deriving DecidableEq, Repr

/-- One entry of the `batchFetchReviews` result: a location together with the
reviews fetched for it. -/
structure LocResult where
  locationName : String
  locationId : String
  accountId : String
  reviews : List Review
deriving DecidableEq, Repr

/-- A Google business account (only `name` is used). -/
structure Account where
  name : String
deriving DecidableEq, Repr

/-- Raw per-user auto-reply settings as stored on the user document: every
field may be absent.  From the `autoReplySettings` shape used by
`autoReplyService.js`. -/
structure RawSettings where
  enabled : Option Bool := none
  delayMinutes : Option Int := none
  tone : Option String := none
  respondToPositive : Option Bool := none
  respondToNeutral : Option Bool := none
  respondToNegative : Option Bool := none
  lastRunAt : Option Int := none
  lastManualRunAt : Option Int := none
  lastReviewSyncAt : Option Int := none
deriving DecidableEq, Repr

/-- `AUTO_REPLY.DEFAULT_DELAY_MINUTES` from `src/utils/constants.js`. -/
def DEFAULT_DELAY_MINUTES : Int := 15

/-- `AUTO_REPLY.MAX_GENERATIONS_PER_CYCLE` from `src/utils/constants.js`
(the env override is absent in the modelled deployment). -/
def MAX_GENERATIONS_PER_CYCLE : Nat := 5

/-- `AUTO_REPLY.MAX_DISPATCH_PER_CYCLE` from `src/utils/constants.js`. -/
def MAX_DISPATCH_PER_CYCLE : Nat := 5

/-- `AUTO_REPLY.SYNC_LOOKBACK_HOURS`: this key is not defined in
`src/utils/constants.js`, so the JavaScript lookup yields `undefined`. -/
def SYNC_LOOKBACK_HOURS : Option Int := none

/-- `RATING_MAP[s] || 0` from `src/utils/constants.js`: star-rating strings to
numeric values, unrecognized strings mapping to 0. -/
def ratingMapOrZero (s : String) : Int :=
  if s = "ONE" then 1
  else if s = "TWO" then 2
  else if s = "THREE" then 3
  else if s = "FOUR" then 4
  else if s = "FIVE" then 5
  else 0

/-- JavaScript `x || d` on an optional number (`0`, like `NaN`, is falsy). -/
def jsOrInt (x : Option Int) (d : Int) : Int :=
  match x with
  | some v => if v = 0 then d else v
  | none => d

/-- JavaScript `x || d` on an optional string (`""` is falsy). -/
def jsOrStr (x : Option String) (d : String) : String :=
  match x with
  | some v => if v = "" then d else v
  | none => d

/-- `normalizeSettings` of `autoReplyService.js`: fills every policy field
with its default and passes `lastRunAt`/`lastManualRunAt` through.  The
returned object literal has no `lastReviewSyncAt` key, so that field of the
result is absent. -/
def normalizeSettings (s : RawSettings) : RawSettings :=
  { enabled := some (s.enabled.getD false)
    delayMinutes := some (jsOrInt s.delayMinutes DEFAULT_DELAY_MINUTES)
    tone := some (jsOrStr s.tone "friendly")
    respondToPositive := some (s.respondToPositive.getD true)
    respondToNeutral := some (s.respondToNeutral.getD true)
    respondToNegative := some (s.respondToNegative.getD true)
    lastRunAt := s.lastRunAt
    lastManualRunAt := s.lastManualRunAt
    lastReviewSyncAt := none }

/-- `bucketByRating` of `autoReplyService.js`. -/
def bucketByRating (ratingValue : Int) : String :=
  if ratingValue ≥ 4 then "positive"
  else if ratingValue = 3 then "neutral"
  else "negative"

/-- The `respondMap[sentimentBucket]` lookup of `syncTasks`; an unrecognized
bucket key gives `undefined`, which is falsy. -/
def respondMap (s : RawSettings) (bucket : String) : Bool :=
  if bucket = "positive" then s.respondToPositive.getD false
  else if bucket = "neutral" then s.respondToNeutral.getD false
  else if bucket = "negative" then s.respondToNegative.getD false
  else false

/-- `Math.max(...xs)` over a non-empty list (the empty case is never used:
the caller guards on `referenceTimes.length`). -/
def maxList : List Int → Int
  | [] => 0
  | x :: xs => xs.foldl max x

/-- Mongo `updateOne`-style update: apply `f` to the first list element
satisfying `p`, leave everything else in place. -/
def updateFirst (p : Task → Bool) (f : Task → Task) : List Task → List Task
  | [] => []
  | t :: ts => if p t then f t :: ts else t :: updateFirst p f ts

/-- The `$set` of the external-reply skip update in `syncTasks`: force the
task to `skipped`, stamp `sentAt`, record the marker error. -/
def skipApply (now : Int) (t : Task) : Task :=
  { t with status := .skipped, sentAt := some now,
           error := some "Reply already exists on Google" }

/-- The external-reply branch of `syncTasks`:
`AutoReplyTask.updateOne({ userId, reviewName }, { $set: ... })`. -/
def skipUpdate (uid : Nat) (name : String) (now : Int) (ts : List Task) : List Task :=
  updateFirst (fun t => t.userId == uid && t.reviewName == name) (skipApply now) ts

/-- The tone-refresh branch of `syncTasks`:
`AutoReplyTask.updateOne({ _id }, { $set: { tone } })`. -/
def toneUpdate (taskId : Nat) (tone : String) (ts : List Task) : List Task :=
  updateFirst (fun t => t.id == taskId) (fun t => { t with tone := tone }) ts

/-- The task record pushed onto `newTasks` in `syncTasks`.  `status` is the
schema default `detected`; `createdAt` comes from `timestamps: true` at
insert time. -/
def mkNewTask (uid : Nat) (taskId : Nat) (loc : LocResult) (r : Review)
    (anchor : Int) (tone : String) (now : Int) : Task :=
  { id := taskId
    userId := uid
    reviewName := r.name
    locationName := loc.locationName
    reviewerName := jsOrStr r.reviewerName "Customer"
    comment := (r.comment).getD ""
    tone := tone
    status := .detected
    scheduledFor := some anchor
    generatedReply := none
    sentAt := none
    error := none
    lastTriedAt := none
    ratingValue := ratingMapOrZero r.starRating
    sentiment := bucketByRating (ratingMapOrZero r.starRating)
    customerName := none
    analysis := none
    createdAt := now }

/-- The JavaScript `Map` built from the user's existing tasks, keyed by
`reviewName` (later entries overwrite earlier ones). -/
def lookupExisting (name : String) (existing : List Task) : Option Task :=
  (existing.filter (fun t => t.reviewName == name)).getLast?

/-- Accumulator of the review loop in `syncTasks`: the evolving task store,
the `newTasks` array, the schedule anchor, and the next fresh `_id`. -/
structure SyncAcc where
  tasks : List Task
  newTasks : List Task
  anchor : Int
  nextId : Nat
deriving Repr

/-- One iteration of the review loop of `syncTasks`, for a single fetched
review.  `existing` is the snapshot of the user's tasks loaded before the
loop (the code consults `existingMap`, not the live store). -/
def syncStep (uid : Nat) (delayMs : Int) (settings : RawSettings) (now : Int)
    (existing : List Task) (acc : SyncAcc) (lr : LocResult × Review) : SyncAcc :=
  let r := lr.2
  let bucket := bucketByRating (ratingMapOrZero r.starRating)
  if r.reviewReply.isSome then
    { acc with tasks := skipUpdate uid r.name now acc.tasks }
  else if ¬ respondMap settings bucket then
    acc
  else
    match lookupExisting r.name existing with
    | some et =>
        if et.tone ≠ jsOrStr settings.tone "" then
          { acc with tasks := toneUpdate et.id (jsOrStr settings.tone "") acc.tasks }
        else
          acc
    | none =>
        { acc with
            newTasks := acc.newTasks ++
              [mkNewTask uid acc.nextId lr.1 r acc.anchor (jsOrStr settings.tone "") now]
            anchor := acc.anchor + delayMs
            nextId := acc.nextId + 1 }

/-- The flattened review stream of one sync pass: locations in order, each
location's reviews in order (`location.reviews || []`). -/
def reviewStream (locs : List LocResult) : List (LocResult × Review) :=
  (locs.map (fun loc => loc.reviews.map (fun r => (loc, r)))).flatten

/-- The schedule anchor `syncTasks` starts from: the maximum `scheduledFor`
(missing stamps read as 0 via `?.getTime?.() || 0`) over the user's
`detected`/`scheduled` tasks plus `delayMs`, or `Date.now()` when there is
no such task. -/
def anchorStart (uid : Nat) (delayMs : Int) (now : Int) (tasks : List Task) : Int :=
  let existing := tasks.filter (fun t => t.userId == uid)
  let referenceTimes := (existing.filter
      (fun t => t.status == .detected || t.status == .scheduled)).map
      (fun t => t.scheduledFor.getD 0)
  if referenceTimes ≠ [] then maxList referenceTimes + delayMs else now

/-- The review loop of `syncTasks` run over the whole fetched stream. -/
def syncCore (uid : Nat) (locs : List LocResult) (delayMs : Int)
    (settings : RawSettings) (now : Int) (nextId : Nat)
    (tasks : List Task) : SyncAcc :=
  let existing := tasks.filter (fun t => t.userId == uid)
  (reviewStream locs).foldl (syncStep uid delayMs settings now existing)
    { tasks := tasks, newTasks := [], anchor := anchorStart uid delayMs now tasks,
      nextId := nextId }

/-- `syncTasks` of `autoReplyService.js`: reconcile fetched reviews into the
task store and bulk-insert the newly created tasks.  (The duplicate-key
swallow of `insertMany` concerns a concurrent-writer race that the
sequential embedding does not exhibit.) -/
def syncTasks (uid : Nat) (locs : List LocResult) (delayMs : Int)
    (settings : RawSettings) (now : Int) (nextId : Nat)
    (tasks : List Task) : List Task × Nat :=
  let acc := syncCore uid locs delayMs settings now nextId tasks
  (acc.tasks ++ acc.newTasks, acc.nextId)

/-- The JSON object parsed from the generator model's response; a missing or
empty key reads as the falsy `""`. -/
structure GenParsed where
  reply : String := ""
  sentiment : String := ""
  customerName : String := ""
  summary : String := ""
  style : String := ""
deriving DecidableEq, Repr

/-- Outcome of one call to the reply-text generator's model backend:
either parsed JSON content or a thrown failure (network error, empty
response, invalid JSON). -/
inductive GenOutcome where
  | ok (p : GenParsed)
  | err (msg : String)
deriving DecidableEq, Repr

/-- The payload `generateReplies` passes to the generator. -/
structure GenPayload where
  businessName : String
  locationName : String
  reviewerName : String
  ratingValue : Int
  reviewText : String
  tone : String
deriving DecidableEq, Repr

/-- The generator's successful result object. -/
structure GenResult where
  reply : String
  sentiment : String
  customerName : String
  summary : String
  style : String
deriving DecidableEq, Repr

/-- `reviewReplyGenerator.generateReply` post-processing: throw when the
parsed response has no truthy `reply`, otherwise fill the remaining keys
with their fallbacks (the service payload carries no `sentiment`, so that
fallback chain ends in `"neutral"`). -/
def generatorReply (payload : GenPayload) (o : GenOutcome) : Except String GenResult :=
  match o with
  | .err m => .error m
  | .ok p =>
      if p.reply = "" then .error "OpenAI response missing reply."
      else .ok
        { reply := p.reply
          sentiment := if p.sentiment ≠ "" then p.sentiment else "neutral"
          customerName :=
            if p.customerName ≠ "" then p.customerName
            else if payload.reviewerName ≠ "" then payload.reviewerName
            else "there"
          summary := p.summary
          style := if p.style ≠ "" then p.style else payload.tone }

/-- The batch `generateReplies` works on: the user's `detected` tasks,
oldest-created first, limited to `MAX_GENERATIONS_PER_CYCLE`. -/
def selectForGeneration (uid : Nat) (tasks : List Task) : List Task :=
  ((tasks.filter (fun t => t.userId == uid && t.status == .detected)).mergeSort
      (fun a b => a.createdAt ≤ b.createdAt)).take MAX_GENERATIONS_PER_CYCLE

/-- The `$set` of the generation-success update. -/
def genSuccessApply (settings : RawSettings) (snapshot : Task) (res : GenResult)
    (t : Task) : Task :=
  { t with
      generatedReply := some res.reply
      status := .scheduled
      sentiment := if res.sentiment ≠ "" then res.sentiment else snapshot.sentiment
      tone := if res.style ≠ "" then res.style else jsOrStr settings.tone ""
      analysis := some
        { summary := res.summary, tone := res.style,
          sentiment := res.sentiment, addressedName := res.customerName }
      customerName := some res.customerName }

/-- The `$set` of the generation-failure update. -/
def genFailureApply (msg : String) (now : Int) (t : Task) : Task :=
  { t with status := .generationFailed, error := some msg, lastTriedAt := some now }

/-- The payload `generateReplies` builds for one task (`user.name || 'our
team'`, `task.locationName || 'our business'`, `task.reviewerName ||
'there'`, `task.ratingValue || 0`, `task.comment || ''`, `settings.tone`). -/
def genPayloadOf (userName : String) (settings : RawSettings) (t : Task) :
    GenPayload :=
  { businessName := if userName ≠ "" then userName else "our team"
    locationName := if t.locationName ≠ "" then t.locationName else "our business"
    reviewerName := if t.reviewerName ≠ "" then t.reviewerName else "there"
    ratingValue := t.ratingValue
    reviewText := t.comment
    tone := jsOrStr settings.tone "" }

/-- One iteration of the `generateReplies` loop for the selected task `t`:
success updates by `_id` (`findByIdAndUpdate`), failure updates with the
`status: { $ne: 'sent' }` guard (`findOneAndUpdate`). -/
def generateStep (userName : String) (settings : RawSettings) (now : Int)
    (ts : List Task) (t : Task) (o : GenOutcome) : List Task :=
  match generatorReply (genPayloadOf userName settings t) o with
  | .ok res =>
      updateFirst (fun x => x.id == t.id) (genSuccessApply settings t res) ts
  | .error m =>
      updateFirst (fun x => x.id == t.id && x.status ≠ .sent)
        (genFailureApply m now) ts

/-- `generateReplies` of `autoReplyService.js`: process the selected batch in
order, feeding each task's generator call outcome from the oracle `g`
(indexed by position in the batch). -/
def generateReplies (uid : Nat) (userName : String) (settings : RawSettings)
    (g : Nat → GenOutcome) (now : Int) (tasks : List Task) : List Task :=
  (selectForGeneration uid tasks).enum.foldl
    (fun ts it => generateStep userName settings now ts it.2 (g it.1)) tasks

/-- Outcome of one `replyToReview` post against the Google API. -/
inductive PostOutcome where
  | posted
  | failed (msg : String)
deriving DecidableEq, Repr

/-- The batch `dispatchReplies` works on: the user's `scheduled` tasks whose
`scheduledFor` is due (Mongo `$lte` does not match a missing field),
earliest-due first, limited to `MAX_DISPATCH_PER_CYCLE`. -/
def selectForDispatch (uid : Nat) (now : Int) (tasks : List Task) : List Task :=
  ((tasks.filter (fun t => t.userId == uid && t.status == .scheduled &&
      match t.scheduledFor with
      | some s => decide (s ≤ now)
      | none => false)).mergeSort
    (fun a b => a.scheduledFor.getD 0 ≤ b.scheduledFor.getD 0)).take
    MAX_DISPATCH_PER_CYCLE

/-- The `$set` of the dispatch-success update. -/
def sentApply (now : Int) (t : Task) : Task :=
  { t with status := .sent, sentAt := some now, lastTriedAt := some now }

/-- The `$set` of the dispatch-failure update. -/
def deliveryFailedApply (msg : String) (now : Int) (t : Task) : Task :=
  { t with status := .deliveryFailed, error := some msg, lastTriedAt := some now }

/-- One iteration of the `dispatchReplies` loop: a missing `generatedReply`
throws into the catch with its message, otherwise the post outcome decides
between the `sent` and `delivery_failed` updates (both by `_id`). -/
def dispatchStep (now : Int) (ts : List Task) (t : Task)
    (o : PostOutcome) : List Task :=
  if (t.generatedReply.getD "") = "" then
    updateFirst (fun x => x.id == t.id)
      (deliveryFailedApply "Missing generated reply" now) ts
  else
    match o with
    | .posted => updateFirst (fun x => x.id == t.id) (sentApply now) ts
    | .failed m => updateFirst (fun x => x.id == t.id)
        (deliveryFailedApply m now) ts

/-- `dispatchReplies` of `autoReplyService.js`: process the due batch in
order, feeding each post outcome from the oracle `p`. -/
def dispatchReplies (uid : Nat) (p : Nat → PostOutcome) (now : Int)
    (tasks : List Task) : List Task :=
  (selectForDispatch uid now tasks).enum.foldl
    (fun ts it => dispatchStep now ts it.2 (p it.1)) tasks

/-- Result of the manual retry endpoint, mirroring its three exits. -/
inductive RetryResult where
  | notFound
  | badStatus
  | requeued (newStatus : Status)
deriving DecidableEq, Repr

/-- `retryAutoReplyTask` of `autoReplyController.js`: look the task up by
`(_id, userId)`, then re-queue `generation_failed` to `detected` or
`delivery_failed` to `scheduled` with a fresh `scheduledFor`; every other
status is rejected.  `raw` is `req.user.autoReplySettings`. -/
def retryAutoReplyTask (uid : Nat) (taskId : Nat) (raw : RawSettings)
    (now : Int) (tasks : List Task) : RetryResult × List Task :=
  match tasks.find? (fun t => t.id == taskId && t.userId == uid) with
  | none => (.notFound, tasks)
  | some task =>
      if task.status = .generationFailed then
        (.requeued .detected,
          updateFirst (fun t => t.id == taskId)
            (fun t => { t with status := .detected, error := none }) tasks)
      else if task.status = .deliveryFailed then
        let delay := jsOrInt raw.delayMinutes DEFAULT_DELAY_MINUTES
        (.requeued .scheduled,
          updateFirst (fun t => t.id == taskId)
            (fun t => { t with status := .scheduled, error := none
                               scheduledFor := some (now + delay * 60000) }) tasks)
      else
        (.badStatus, tasks)

/-- One page of the paginated review listing: the page's reviews and whether
a `nextPageToken` was returned. -/
structure PageResp where
  reviews : List Review := []
  hasNext : Bool := false
deriving DecidableEq, Repr

/-- `new Date(review.updateTime || review.createTime || 0).getTime()`. -/
def reviewUpdatedAt (r : Review) : Int :=
  r.updateTime.getD (r.createTime.getD 0)

/-- The per-page `since` filter of `getAllReviews`: keep reviews updated at
or after `since`; any older item sets `stopPaging`. -/
def filterSince (since : Int) (rs : List Review) : List Review × Bool :=
  rs.foldl
    (fun acc r =>
      if reviewUpdatedAt r ≥ since then (acc.1 ++ [r], acc.2) else (acc.1, true))
    ([], false)

/-- The pagination loop of `getAllReviews`, driven by the oracle list of
page outcomes: a thrown page returns the reviews accumulated so far (the
catch returns partial data); otherwise paging continues until `stopPaging`
or no `nextPageToken`. -/
def getAllReviewsGo (since : Option Int) : List (Except String PageResp) →
    List Review → List Review
  | [], acc => acc
  | page :: rest, acc =>
      match page with
      | .error _ => acc
      | .ok p =>
          match since with
          | some s =>
              let fs := filterSince s p.reviews
              if fs.2 || !p.hasNext then acc ++ fs.1
              else getAllReviewsGo since rest (acc ++ fs.1)
          | none =>
              if !p.hasNext then acc ++ p.reviews
              else getAllReviewsGo since rest (acc ++ p.reviews)

/-- `getAllReviews` of `googleApiService.js`. -/
def getAllReviews (since : Option Int)
    (pages : List (Except String PageResp)) : List Review :=
  getAllReviewsGo since pages []

/-- `batchFetchReviews` of `googleApiService.js`: every location gets an
entry; the grouping into concurrency batches of `MAX_CONCURRENT_REQUESTS`
preserves the per-location results and their order, so the embedding maps
over the locations directly, reading location `i`'s page outcomes from
`pages i`. -/
def batchFetchReviews (accountName : String) (locations : List Location)
    (since : Option Int) (pages : Nat → List (Except String PageResp)) :
    List LocResult :=
  locations.enum.map (fun il =>
    { locationName := il.2.title
      locationId := il.2.name
      accountId := accountName
      reviews := getAllReviews since (pages il.1) })

/-- Oracle for one `fetchReviews` call: outcomes of the `getAccounts` and
`getLocations` requests and the per-location page outcomes. -/
structure FetchEnv where
  accountsResult : Except String (List Account)
  locationsResult : Except String (List Location)
  pages : Nat → List (Except String PageResp)

/-- Result of `fetchReviews`. -/
structure FetchResult where
  account : Option Account
  locationsWithReviews : List LocResult
  latestReviewTime : Option Int
deriving Repr

/-- `fetchReviews` of `autoReplyService.js`: resolve the first account and
the locations (any throw is caught and degrades to `account: null`), fetch
reviews, and fold the high-water mark starting from the prior
`lastReviewSyncAt`.  `latestReviewTime || null` makes a zero mark absent. -/
def fetchReviews (env : FetchEnv) (lastReviewSyncAt : Option Int) : FetchResult :=
  match env.accountsResult with
  | .error _ => { account := none, locationsWithReviews := [], latestReviewTime := none }
  | .ok accounts =>
      match accounts.head? with
      | none => { account := none, locationsWithReviews := [], latestReviewTime := none }
      | some account =>
          match env.locationsResult with
          | .error _ =>
              { account := none, locationsWithReviews := [], latestReviewTime := none }
          | .ok locations =>
              if locations.isEmpty then
                { account := some account, locationsWithReviews := [],
                  latestReviewTime := none }
              else
                let lastSync := lastReviewSyncAt
                let since : Option Int :=
                  match lastSync, SYNC_LOOKBACK_HOURS with
                  | some t, some h =>
                      if h = 0 then none else some (t - h * 3600000)
                  | _, _ => none
                let locs := batchFetchReviews account.name locations since env.pages
                let base : Int := match lastSync with | some t => t | none => 0
                let latest := locs.foldl
                  (fun m lr => lr.reviews.foldl (fun m r => max m (reviewUpdatedAt r)) m)
                  base
                { account := some account, locationsWithReviews := locs,
                  latestReviewTime := if latest = 0 then none else some latest }

/-- A user document, restricted to the fields `runForUser` reads. -/
structure User where
  id : Nat
  name : String
  googleAccessToken : Option String
  autoReplySettings : RawSettings

/-- Result of one per-user run. -/
inductive RunResult where
  | skippedRun (reason : String)
  | success (account : String) (reason : String)
deriving DecidableEq, Repr

/-- Oracles for one per-user run: the `OPENAI_API_KEY` presence, the fetch
call outcomes, the generator outcomes and the post outcomes. -/
structure RunEnv where
  openaiKeyPresent : Bool
  fetch : FetchEnv
  gen : Nat → GenOutcome
  post : Nat → PostOutcome

/-- The persistent task store: all task documents plus the next fresh
`_id`. -/
structure St where
  tasks : List Task
  nextId : Nat

/-- `runForUser` of `autoReplyService.js`: precondition short-circuits, then
fetch, sync, generate, dispatch, then persist the updated settings
(`lastRunAt`, optionally `lastManualRunAt` and `lastReviewSyncAt`).  Returns
the run result, the saved user and the updated task store. -/
def runForUser (env : RunEnv) (u : User) (manual : Bool) (reason : String)
    (now : Int) (st : St) : RunResult × User × St :=
  let settings := normalizeSettings u.autoReplySettings
  if ¬ settings.enabled.getD false then
    (.skippedRun "disabled", u, st)
  else if (u.googleAccessToken.getD "") = "" then
    (.skippedRun "missing-token", u, st)
  else if ¬ env.openaiKeyPresent then
    (.skippedRun "missing-openai-key", u, st)
  else
    let delayMs := jsOrInt settings.delayMinutes 0 * 60000
    let fr := fetchReviews env.fetch u.autoReplySettings.lastReviewSyncAt
    match fr.account with
    | none => (.skippedRun "no-account", u, st)
    | some account =>
        let s1 := syncTasks u.id fr.locationsWithReviews delayMs settings now
          st.nextId st.tasks
        let t2 := generateReplies u.id u.name settings env.gen now s1.1
        let t3 := dispatchReplies u.id env.post now t2
        let next0 := { settings with
          lastRunAt := some now
          lastManualRunAt := if manual then some now else settings.lastManualRunAt }
        let nextSettings :=
          match fr.latestReviewTime with
          | some t => { next0 with lastReviewSyncAt := some t }
          | none => next0
        (.success account.name reason,
          { u with autoReplySettings := nextSettings },
          { tasks := t3, nextId := s1.2 })

/-- `triggerManualRun` of `autoReplyService.js`: run the pipeline manually,
then overwrite the user's settings with their normalization plus a fresh
`lastManualRunAt`, and save. -/
def triggerManualRun (env : RunEnv) (u : User) (now : Int) (st : St) :
    RunResult × User × St :=
  let r := runForUser env u true "interval" now st
  let u1 := r.2.1
  (r.1,
    { u1 with autoReplySettings :=
        { normalizeSettings u1.autoReplySettings with lastManualRunAt := some now } },
    r.2.2)

/-- The cycle loop of `runCycle`: per-user run outcomes are consumed in user
order inside one `try`; the first rejected run transfers control to the
`catch` at the cycle boundary, which records the error, and the loop does
not resume.  Returns the results of the runs that happened and the logged
cycle error, if any. -/
def runCycleGo : List (Except String RunResult) → List RunResult →
    List RunResult × Option String
  | [], acc => (acc, none)
  | .ok r :: rest, acc => runCycleGo rest (acc ++ [r])
  | .error e :: _, acc => (acc, some e)

/-- `runCycle` of `autoReplyService.js`, abstracted over the list of
per-user run outcomes for the enabled users of this cycle. -/
def runCycle (outcomes : List (Except String RunResult)) :
    List RunResult × Option String :=
  runCycleGo outcomes []

/-! ### Helper lemmas -/

theorem jsOrInt_ne_default_zero (x : Option Int) (d : Int) (hd : d ≠ 0) :
    jsOrInt x d ≠ 0 := by
  unfold jsOrInt
  cases x with
  | none => exact hd
  | some v =>
      by_cases hv : v = 0
      · simp [hv, hd]
      · simp [hv]

theorem jsOrInt_idem (x : Option Int) (d : Int) (hd : d ≠ 0) :
    jsOrInt (some (jsOrInt x d)) d = jsOrInt x d := by
  have h := jsOrInt_ne_default_zero x d hd
  unfold jsOrInt
  simp only [jsOrInt] at h
  split <;> simp_all

theorem jsOrStr_ne_default_empty (x : Option String) (d : String) (hd : d ≠ "") :
    jsOrStr x d ≠ "" := by
  unfold jsOrStr
  cases x with
  | none => exact hd
  | some v =>
      by_cases hv : v = ""
      · simp [hv, hd]
      · simp [hv]

theorem jsOrStr_idem (x : Option String) (d : String) (hd : d ≠ "") :
    jsOrStr (some (jsOrStr x d)) d = jsOrStr x d := by
  have h := jsOrStr_ne_default_empty x d hd
  unfold jsOrStr
  simp only [jsOrStr] at h
  split <;> simp_all

/-! ### C9: normalization is idempotent and fills documented defaults -/

/-- C9.  For every partial settings object `x`,
`normalizeSettings (normalizeSettings x) = normalizeSettings x`, the default
delay constant is 15, and absent fields receive the documented defaults:
`enabled := false`, `delayMinutes := 15`, `tone := "friendly"`, and all
three sentiment gates `true`. -/
theorem normalizeSettings_idempotent_and_defaults :
    (∀ s : RawSettings,
      normalizeSettings (normalizeSettings s) = normalizeSettings s) ∧
    DEFAULT_DELAY_MINUTES = 15 ∧
    (∀ s : RawSettings,
      (s.enabled = none → (normalizeSettings s).enabled = some false) ∧
      (s.delayMinutes = none →
        (normalizeSettings s).delayMinutes = some DEFAULT_DELAY_MINUTES) ∧
      (s.tone = none → (normalizeSettings s).tone = some "friendly") ∧
      (s.respondToPositive = none →
        (normalizeSettings s).respondToPositive = some true) ∧
      (s.respondToNeutral = none →
        (normalizeSettings s).respondToNeutral = some true) ∧
      (s.respondToNegative = none →
        (normalizeSettings s).respondToNegative = some true)) := by
  refine ⟨?_, rfl, ?_⟩
  · intro s
    unfold normalizeSettings
    simp only [Option.getD_some]
    congr 1
    · exact congrArg some
        (jsOrInt_idem s.delayMinutes DEFAULT_DELAY_MINUTES (by decide))
    · exact congrArg some (jsOrStr_idem s.tone "friendly" (by decide))
  · intro s
    refine ⟨?_, ?_, ?_, ?_, ?_, ?_⟩ <;> intro h <;>
      simp [normalizeSettings, h, jsOrInt, jsOrStr]

/-- Closed instance of C9 discharging its hypotheses at the empty settings
object. -/
theorem normalizeSettings_idempotent_and_defaults_witness :
    normalizeSettings (normalizeSettings {}) = normalizeSettings {} ∧
    (normalizeSettings ({} : RawSettings)).delayMinutes =
      some DEFAULT_DELAY_MINUTES ∧
    (normalizeSettings ({} : RawSettings)).tone = some "friendly" :=
  ⟨normalizeSettings_idempotent_and_defaults.1 {},
   (normalizeSettings_idempotent_and_defaults.2.2 {}).2.1 rfl,
   (normalizeSettings_idempotent_and_defaults.2.2 {}).2.2.1 rfl⟩

/-! ### C6: precondition failures short-circuit without modifying state -/

/-- C6.  For every user failing a precondition — auto-reply disabled,
missing Google credential, missing generator API key, or no external
account resolvable — `runForUser` returns a structured skipped result with
the corresponding reason code, and neither the user's stored settings (in
particular `lastRunAt`) nor the task store are modified. -/
theorem runForUser_precondition_skips (env : RunEnv) (u : User) (manual : Bool)
    (reason : String) (now : Int) (st : St) :
    (¬ (normalizeSettings u.autoReplySettings).enabled.getD false →
      runForUser env u manual reason now st = (.skippedRun "disabled", u, st)) ∧
    ((normalizeSettings u.autoReplySettings).enabled.getD false →
      (u.googleAccessToken.getD "") = "" →
      runForUser env u manual reason now st = (.skippedRun "missing-token", u, st)) ∧
    ((normalizeSettings u.autoReplySettings).enabled.getD false →
      (u.googleAccessToken.getD "") ≠ "" → ¬ env.openaiKeyPresent →
      runForUser env u manual reason now st =
        (.skippedRun "missing-openai-key", u, st)) ∧
    ((normalizeSettings u.autoReplySettings).enabled.getD false →
      (u.googleAccessToken.getD "") ≠ "" → env.openaiKeyPresent →
      (fetchReviews env.fetch u.autoReplySettings.lastReviewSyncAt).account = none →
      runForUser env u manual reason now st =
        (.skippedRun "no-account", u, st)) := by
  refine ⟨?_, ?_, ?_, ?_⟩
  · intro h
    simp [runForUser, h]
  · intro h1 h2
    simp [runForUser, h1, h2]
  · intro h1 h2 h3
    simp [runForUser, h1, h2, h3]
  · intro h1 h2 h3 h4
    simp [runForUser, h1, h2, h3, h4]

/-- Closed instance of C6: a user with auto-reply enabled and a Google
token but no generator API key is skipped with reason
`missing-openai-key`, leaving user and task store untouched. -/
theorem runForUser_precondition_skips_witness :
    let u : User :=
      { id := 1, name := "Acme", googleAccessToken := some "tok",
        autoReplySettings := { enabled := some true } }
    let env : RunEnv :=
      { openaiKeyPresent := false
        fetch := { accountsResult := .ok [], locationsResult := .ok [],
                   pages := fun _ => [] }
        gen := fun _ => .err "unused"
        post := fun _ => .posted }
    runForUser env u false "interval" 1000 { tasks := [], nextId := 0 } =
      (.skippedRun "missing-openai-key", u, { tasks := [], nextId := 0 }) := by
  intro u env
  exact (runForUser_precondition_skips env u false "interval" 1000
      { tasks := [], nextId := 0 }).2.2.1 (by decide) (by decide) (by decide)

/-! ### C7: an exception in one user's run ends the cycle loop -/

/-- C7 as stated is false: the `catch` of `runCycle` sits outside the
per-user loop, so when the first user's run rejects, the second enabled
user is not processed in that cycle — no run result is produced for it. -/
theorem runCycle_stops_at_first_error_counterexample :
    runCycle [.error "boom", .ok (.success "accounts/1" "interval")] =
      ([], some "boom") := rfl

/-- C7 amended.  An uncaught exception during a per-user run is caught and
logged at the cycle boundary (`runCycle` completes normally, recording the
error), but the users after the failing one are not processed in that
cycle: the processed runs are exactly the successful prefix before the
first failure, and a cycle without failures processes every user. -/
theorem runCycle_catches_and_aborts (init rest : List (Except String RunResult))
    (e : String) (ok : ∀ x ∈ init, x.isOk) :
    runCycle (init ++ .error e :: rest) =
      (init.filterMap (fun x => x.toOption), some e) ∧
    ((∀ x ∈ rest, x.isOk) →
      runCycle rest = (rest.filterMap (fun x => x.toOption), none)) := by
  constructor
  · have go : ∀ (l : List (Except String RunResult)) (acc : List RunResult),
        (∀ x ∈ l, x.isOk) →
        runCycleGo (l ++ .error e :: rest) acc =
          (acc ++ l.filterMap (fun x => x.toOption), some e) := by
      intro l
      induction l with
      | nil => intro acc _; simp [runCycleGo]
      | cons hd tl ih =>
          intro acc hok
          cases hd with
          | error m =>
              exact absurd (hok (.error m) (by simp)) (by simp [Except.isOk, Except.toBool])
          | ok r =>
              have h2 := ih (acc ++ [r])
                (fun x hx => hok x (List.mem_cons_of_mem _ hx))
              simp only [List.cons_append, runCycleGo]
              simpa [Except.toOption] using h2
    simpa using go init [] ok
  · intro hok
    have go : ∀ (l : List (Except String RunResult)) (acc : List RunResult),
        (∀ x ∈ l, x.isOk) →
        runCycleGo l acc = (acc ++ l.filterMap (fun x => x.toOption), none) := by
      intro l
      induction l with
      | nil => intro acc _; simp [runCycleGo]
      | cons hd tl ih =>
          intro acc hk
          cases hd with
          | error m =>
              exact absurd (hk (.error m) (by simp)) (by simp [Except.isOk, Except.toBool])
          | ok r =>
              have h2 := ih (acc ++ [r])
                (fun x hx => hk x (List.mem_cons_of_mem _ hx))
              simp only [runCycleGo]
              simpa [Except.toOption] using h2
    simpa using go rest [] hok

/-- Closed instance of the amended C7: one successful run before a failure
is kept, the failure is recorded, the run after it does not happen. -/
theorem runCycle_catches_and_aborts_witness :
    runCycle [.ok (.success "accounts/1" "interval"), .error "boom",
        .ok (.success "accounts/2" "interval")] =
      ([.success "accounts/1" "interval"], some "boom") :=
  (runCycle_catches_and_aborts [.ok (.success "accounts/1" "interval")]
    [.ok (.success "accounts/2" "interval")] "boom" (by decide)).1

/-! ### C10: per-location fetch failure degradation -/

/-- C10 as stated is false in the partial-pagination case: for a location
whose first review page succeeds (with one review and a next-page token)
and whose second page request throws, `getAllReviews` catches the error and
returns the partial page-one data, so the batch result for that location is
a non-empty list rather than the empty list the claim requires. -/
theorem batchFetchReviews_failure_counterexample :
    (batchFetchReviews "accounts/1" [{ name := "locations/1", title := "HQ" }]
        none
        (fun _ =>
          [.ok { reviews := [{ name := "reviews/1", reviewId := none,
                               starRating := "FIVE", comment := some "Great!",
                               reviewerName := some "Ana", reviewReply := none,
                               createTime := some 100, updateTime := some 100 }],
                 hasNext := true },
           .error "socket hang up"])).map (·.reviews) =
      [[{ name := "reviews/1", reviewId := none, starRating := "FIVE",
          comment := some "Great!", reviewerName := some "Ana",
          reviewReply := none, createTime := some 100,
          updateTime := some 100 }]] := by
  simp [batchFetchReviews, getAllReviews, getAllReviewsGo, List.enum]

/-- C10 amended.  A failing location fetch degrades to the reviews
accumulated before the failure — the empty list when already the first page
request throws — the failure is never propagated (`batchFetchReviews`
returns an entry for every location), and each location's result depends
only on that location's own page outcomes, so one location's failure leaves
every other location's result unaffected. -/
theorem batchFetchReviews_degrades (acct : String) (locations : List Location)
    (since : Option Int) (pages pagesB : Nat → List (Except String PageResp)) :
    (batchFetchReviews acct locations since pages).length = locations.length ∧
    (∀ i (h : i < locations.length),
      (batchFetchReviews acct locations since pages).get
          ⟨i, by simpa [batchFetchReviews] using h⟩ =
        { locationName := (locations.get ⟨i, h⟩).title
          locationId := (locations.get ⟨i, h⟩).name
          accountId := acct
          reviews := getAllReviews since (pages i) }) ∧
    (∀ i (h : i < locations.length), pages i = pagesB i →
      (batchFetchReviews acct locations since pages).get
          ⟨i, by simpa [batchFetchReviews] using h⟩ =
        (batchFetchReviews acct locations since pagesB).get
          ⟨i, by simpa [batchFetchReviews] using h⟩) ∧
    (∀ (e : String) (rest : List (Except String PageResp)),
      getAllReviews since (.error e :: rest) = []) := by
  have hget : ∀ (ps : Nat → List (Except String PageResp)) (i : Nat)
      (h : i < locations.length),
      (batchFetchReviews acct locations since ps).get
          ⟨i, by simpa [batchFetchReviews] using h⟩ =
        { locationName := (locations.get ⟨i, h⟩).title
          locationId := (locations.get ⟨i, h⟩).name
          accountId := acct
          reviews := getAllReviews since (ps i) } := by
    intro ps i h
    simp [batchFetchReviews, List.get_eq_getElem]
  refine ⟨by simp [batchFetchReviews], hget pages, ?_, ?_⟩
  · intro i h hagree
    rw [hget pages i h, hget pagesB i h, hagree]
  · intro e rest
    simp [getAllReviews, getAllReviewsGo]

/-- Closed instance of the amended C10: with two locations where the first
location's only page throws and the second's succeeds, the first degrades
to an empty list while the second keeps its review. -/
theorem batchFetchReviews_degrades_witness :
    (batchFetchReviews "accounts/1"
        [{ name := "locations/1", title := "HQ" },
         { name := "locations/2", title := "Annex" }] none
        (fun i => if i = 0 then [.error "timeout"]
          else [.ok { reviews := [{ name := "reviews/2", reviewId := none,
                                    starRating := "ONE", comment := none,
                                    reviewerName := none, reviewReply := none,
                                    createTime := some 7, updateTime := none }],
                      hasNext := false }])).get ⟨0, by decide⟩ =
      { locationName := "HQ", locationId := "locations/1",
        accountId := "accounts/1", reviews := [] } := by
  have h := (batchFetchReviews_degrades "accounts/1"
    [{ name := "locations/1", title := "HQ" },
     { name := "locations/2", title := "Annex" }] none
    (fun i => if i = 0 then [.error "timeout"]
      else [.ok { reviews := [{ name := "reviews/2", reviewId := none,
                                starRating := "ONE", comment := none,
                                reviewerName := none, reviewReply := none,
                                createTime := some 7, updateTime := none }],
                  hasNext := false }])
    (fun _ => [])).2.1 0 (by decide)
  simpa [getAllReviews, getAllReviewsGo] using h

/-! ### C5: sentiment bucketing and gate respect -/

/-- Every task created by the sync pass arises from some fetched review
that carries no external reply and whose sentiment gate is on, and the task
carries that review's name. -/
theorem syncCore_newTasks_sound (uid : Nat) (locs : List LocResult)
    (delayMs : Int) (settings : RawSettings) (now : Int) (nextId : Nat)
    (tasks : List Task) :
    ∀ t ∈ (syncCore uid locs delayMs settings now nextId tasks).newTasks,
      ∃ lr ∈ reviewStream locs,
        t.reviewName = lr.2.name ∧ lr.2.reviewReply = none ∧
        respondMap settings
          (bucketByRating (ratingMapOrZero lr.2.starRating)) = true := by
  have go : ∀ (l : List (LocResult × Review)) (acc : SyncAcc),
      ∀ t ∈ (l.foldl (syncStep uid delayMs settings now
          (tasks.filter (fun x => x.userId == uid))) acc).newTasks,
        t ∈ acc.newTasks ∨
        ∃ lr ∈ l, t.reviewName = lr.2.name ∧ lr.2.reviewReply = none ∧
          respondMap settings
            (bucketByRating (ratingMapOrZero lr.2.starRating)) = true := by
    intro l
    induction l with
    | nil => intro acc t ht; exact Or.inl ht
    | cons hd tl ih =>
        intro acc t ht
        rw [List.foldl_cons] at ht
        rcases ih _ t ht with hmem | ⟨lr, hlr, hrest⟩
        · by_cases hrep : hd.2.reviewReply.isSome
          · left
            simpa [syncStep, hrep] using hmem
          · by_cases hgate : respondMap settings
                (bucketByRating (ratingMapOrZero hd.2.starRating))
            · rcases hex : lookupExisting hd.2.name
                  (tasks.filter (fun x => x.userId == uid)) with _ | et
              · have hsplit : t ∈ acc.newTasks ∨
                    t = mkNewTask uid acc.nextId hd.1 hd.2 acc.anchor
                      (jsOrStr settings.tone "") now := by
                  have h0 : t ∈ acc.newTasks ++ [mkNewTask uid acc.nextId hd.1
                      hd.2 acc.anchor (jsOrStr settings.tone "") now] := by
                    simpa [syncStep, hrep, hgate, hex] using hmem
                  simpa [List.mem_append] using h0
                rcases hsplit with h | h
                · exact Or.inl h
                · right
                  refine ⟨hd, List.mem_cons_self _ _, ?_⟩
                  have ht' : t = mkNewTask uid acc.nextId hd.1 hd.2 acc.anchor
                      (jsOrStr settings.tone "") now := by simpa using h
                  refine ⟨by simp [ht', mkNewTask], ?_, hgate⟩
                  cases hr : hd.2.reviewReply with
                  | none => rfl
                  | some v => simp [hr] at hrep
              · left
                by_cases htone : et.tone ≠ jsOrStr settings.tone ""
                · simpa [syncStep, hrep, hgate, hex, htone] using hmem
                · simpa [syncStep, hrep, hgate, hex, htone] using hmem
            · left
              simpa [syncStep, hrep, hgate] using hmem
        · exact Or.inr ⟨lr, List.mem_cons_of_mem _ hlr, hrest⟩
  intro t ht
  have := go (reviewStream locs)
    { tasks := tasks, newTasks := [], anchor := anchorStart uid delayMs now tasks,
      nextId := nextId } t (by simpa [syncCore] using ht)
  simpa using this

/-- C5.  The sentiment bucket of a review is computed from the numeric
rating — at least 4 is positive, exactly 3 is neutral, everything below 3
(including the 0 of an unrecognized star-rating string) is negative — and a
review without an external reply whose bucket's gate is off produces no
task in the sync pass (its name is not among the created tasks, provided no
distinct fetched review shares its name). -/
theorem bucket_and_gate_respect :
    (∀ v : Int, 4 ≤ v → bucketByRating v = "positive") ∧
    bucketByRating 3 = "neutral" ∧
    (∀ v : Int, v < 3 → bucketByRating v = "negative") ∧
    (∀ s : String, s ≠ "ONE" → s ≠ "TWO" → s ≠ "THREE" → s ≠ "FOUR" →
      s ≠ "FIVE" → ratingMapOrZero s = 0) ∧
    (∀ (uid : Nat) (locs : List LocResult) (delayMs : Int)
        (settings : RawSettings) (now : Int) (nextId : Nat)
        (tasks : List Task) (lr : LocResult × Review),
      lr ∈ reviewStream locs →
      lr.2.reviewReply = none →
      respondMap settings
        (bucketByRating (ratingMapOrZero lr.2.starRating)) = false →
      (∀ lr2 ∈ reviewStream locs, lr2.2.name = lr.2.name → lr2.2 = lr.2) →
      ∀ t ∈ (syncCore uid locs delayMs settings now nextId tasks).newTasks,
        t.reviewName ≠ lr.2.name) := by
  refine ⟨?_, rfl, ?_, ?_, ?_⟩
  · intro v hv
    simp [bucketByRating, hv]
  · intro v hv
    have h1 : ¬ v ≥ 4 := by omega
    have h2 : v ≠ 3 := by omega
    simp [bucketByRating, h1, h2]
  · intro s h1 h2 h3 h4 h5
    simp [ratingMapOrZero, h1, h2, h3, h4, h5]
  · intro uid locs delayMs settings now nextId tasks lr hmem hrep hgate huniq
      t ht hname
    obtain ⟨lr2, hlr2, hn, hrep2, hgate2⟩ :=
      syncCore_newTasks_sound uid locs delayMs settings now nextId tasks t ht
    have : lr2.2 = lr.2 := huniq lr2 hlr2 (by rw [← hn, hname])
    rw [this] at hgate2
    rw [hgate2] at hgate
    exact Bool.noConfusion hgate

/-- Closed instance of C5: a 1-star review with the negative gate off
creates no task. -/
theorem bucket_and_gate_respect_witness :
    bucketByRating 1 = "negative" ∧
    ∀ t ∈ (syncCore 1
        [{ locationName := "HQ", locationId := "locations/1",
           accountId := "accounts/1",
           reviews := [{ name := "reviews/9", reviewId := none,
                         starRating := "ONE", comment := some "Bad",
                         reviewerName := none, reviewReply := none,
                         createTime := none, updateTime := none }] }]
        600000 { respondToNegative := some false } 1000 0 []).newTasks,
      t.reviewName ≠ "reviews/9" := by
  refine ⟨bucket_and_gate_respect.2.2.1 1 (by decide), ?_⟩
  exact bucket_and_gate_respect.2.2.2.2 1 _ 600000
    { respondToNegative := some false } 1000 0 []
    ({ locationName := "HQ", locationId := "locations/1",
       accountId := "accounts/1",
       reviews := [{ name := "reviews/9", reviewId := none,
                     starRating := "ONE", comment := some "Bad",
                     reviewerName := none, reviewReply := none,
                     createTime := none, updateTime := none }] },
     { name := "reviews/9", reviewId := none, starRating := "ONE",
       comment := some "Bad", reviewerName := none, reviewReply := none,
       createTime := none, updateTime := none })
    (by simp [reviewStream]) rfl (by decide)
    (by intro lr2 h2 hn; simp [reviewStream] at h2; simp [h2])

/-! ### C2: monotone, evenly spaced scheduling within one sync pass -/

/-- Shape of one sync iteration: either the created-task list and the
anchor are untouched (skip, gate-off and existing-task branches), or
exactly one task scheduled at the current anchor is appended and the anchor
advances by `delayMs` (creation branch). -/
theorem syncStep_shape (uid : Nat) (delayMs : Int) (settings : RawSettings)
    (now : Int) (ex : List Task) (acc : SyncAcc) (lr : LocResult × Review) :
    ((syncStep uid delayMs settings now ex acc lr).newTasks = acc.newTasks ∧
     (syncStep uid delayMs settings now ex acc lr).anchor = acc.anchor) ∨
    ((syncStep uid delayMs settings now ex acc lr).newTasks =
        acc.newTasks ++ [mkNewTask uid acc.nextId lr.1 lr.2 acc.anchor
          (jsOrStr settings.tone "") now] ∧
     (syncStep uid delayMs settings now ex acc lr).anchor =
        acc.anchor + delayMs) := by
  by_cases hrep : lr.2.reviewReply.isSome
  · left
    constructor <;> simp [syncStep, hrep]
  · by_cases hgate : respondMap settings
        (bucketByRating (ratingMapOrZero lr.2.starRating))
    · rcases hex : lookupExisting lr.2.name ex with _ | et
      · right
        constructor <;> simp [syncStep, hrep, hgate, hex]
      · by_cases htone : et.tone ≠ jsOrStr settings.tone ""
        · left
          constructor <;> simp [syncStep, hrep, hgate, hex, htone]
        · left
          constructor <;> simp [syncStep, hrep, hgate, hex, htone]
    · left
      constructor <;> simp [syncStep, hrep, hgate]

/-- Invariant of the sync fold relating the anchor to the created tasks:
starting from anchor `A`, after any prefix of the review stream the anchor
is `A + countCreated * delayMs` and the `i`-th created task is scheduled at
`A + i * delayMs`. -/
theorem syncFold_sched_invariant (uid : Nat) (delayMs : Int)
    (settings : RawSettings) (now : Int) (ex : List Task) (A : Int)
    (l : List (LocResult × Review)) (acc : SyncAcc)
    (hanch : acc.anchor = A + acc.newTasks.length * delayMs)
    (hpos : ∀ (i : Nat) (t : Task), acc.newTasks[i]? = some t →
      t.scheduledFor = some (A + (i : Int) * delayMs)) :
    (l.foldl (syncStep uid delayMs settings now ex) acc).anchor =
      A + (l.foldl (syncStep uid delayMs settings now ex) acc).newTasks.length
        * delayMs ∧
    ∀ (i : Nat) (t : Task),
      (l.foldl (syncStep uid delayMs settings now ex) acc).newTasks[i]? =
        some t →
      t.scheduledFor = some (A + (i : Int) * delayMs) := by
  induction l generalizing acc with
  | nil => exact ⟨hanch, hpos⟩
  | cons hd tl ih =>
      rw [List.foldl_cons]
      rcases syncStep_shape uid delayMs settings now ex acc hd with
        ⟨hn, ha⟩ | ⟨hn, ha⟩
      · exact ih _ (by rw [ha, hn]; exact hanch)
          (fun i t ht => hpos i t (by rwa [hn] at ht))
      · refine ih _ ?_ ?_
        · rw [ha, hn, hanch]
          simp only [List.length_append, List.length_singleton]
          push_cast
          ring
        · intro i t ht
          rw [hn] at ht
          rcases Nat.lt_or_ge i acc.newTasks.length with hlt | hge
          · rw [List.getElem?_append_left hlt] at ht
            exact hpos i t ht
          · rw [List.getElem?_append_right hge] at ht
            rcases Nat.lt_or_ge (i - acc.newTasks.length) 1 with h1 | h1
            · have hi : i = acc.newTasks.length := by omega
              have hteq : t = mkNewTask uid acc.nextId hd.1 hd.2 acc.anchor
                  (jsOrStr settings.tone "") now := by
                have h0 : i - acc.newTasks.length = 0 := by omega
                rw [h0] at ht
                simpa using ht.symm
              subst hi
              rw [hteq, hanch]
              simp [mkNewTask]
            · have hnone : ([mkNewTask uid acc.nextId hd.1 hd.2 acc.anchor
                  (jsOrStr settings.tone "") now][i - acc.newTasks.length]? :
                  Option Task) = none := by
                apply List.getElem?_eq_none
                simpa using h1
              rw [hnone] at ht
              exact absurd ht (by simp)

/-- C2.  Within one sync pass with spacing `delayMinutes * 60000`, the
`i`-th newly created task is scheduled at `anchorStart + i * delayMs`;
hence consecutive created tasks differ by exactly `delayMinutes * 60000`
milliseconds, creation order is strictly increasing in schedule time, and
the first created task is scheduled at `max(scheduledFor over the user's
detected/scheduled tasks) + delayMs`, or at `now` when no such task
exists. -/
theorem monotonic_scheduling (uid : Nat) (locs : List LocResult)
    (delayMinutes : Int) (settings : RawSettings) (now : Int) (nextId : Nat)
    (tasks : List Task) (hpos : 0 < delayMinutes) :
    (∀ i (h : i < (syncCore uid locs (delayMinutes * 60000) settings now nextId
        tasks).newTasks.length),
      ((syncCore uid locs (delayMinutes * 60000) settings now nextId
          tasks).newTasks.get ⟨i, h⟩).scheduledFor =
        some (anchorStart uid (delayMinutes * 60000) now tasks +
          i * (delayMinutes * 60000))) ∧
    (∀ i (h : i + 1 < (syncCore uid locs (delayMinutes * 60000) settings now
        nextId tasks).newTasks.length),
      ((syncCore uid locs (delayMinutes * 60000) settings now nextId
          tasks).newTasks.get ⟨i + 1, h⟩).scheduledFor.getD 0 =
        ((syncCore uid locs (delayMinutes * 60000) settings now nextId
            tasks).newTasks.get ⟨i, by omega⟩).scheduledFor.getD 0 +
          delayMinutes * 60000) ∧
    (∀ i j (hij : i < j) (hj : j < (syncCore uid locs (delayMinutes * 60000)
        settings now nextId tasks).newTasks.length),
      ((syncCore uid locs (delayMinutes * 60000) settings now nextId
          tasks).newTasks.get ⟨i, by omega⟩).scheduledFor.getD 0 <
        ((syncCore uid locs (delayMinutes * 60000) settings now nextId
            tasks).newTasks.get ⟨j, hj⟩).scheduledFor.getD 0) ∧
    (∀ h0 : 0 < (syncCore uid locs (delayMinutes * 60000) settings now nextId
        tasks).newTasks.length,
      ((syncCore uid locs (delayMinutes * 60000) settings now nextId
          tasks).newTasks.get ⟨0, h0⟩).scheduledFor =
        some (anchorStart uid (delayMinutes * 60000) now tasks)) := by
  have base := syncFold_sched_invariant uid (delayMinutes * 60000) settings now
    (tasks.filter (fun x => x.userId == uid))
    (anchorStart uid (delayMinutes * 60000) now tasks) (reviewStream locs)
    { tasks := tasks, newTasks := [],
      anchor := anchorStart uid (delayMinutes * 60000) now tasks,
      nextId := nextId }
    (by simp) (by intro i t ht; simp at ht)
  have hsched := base.2
  have hsched' : ∀ i (h : i < (syncCore uid locs (delayMinutes * 60000)
      settings now nextId tasks).newTasks.length),
      ((syncCore uid locs (delayMinutes * 60000) settings now nextId
          tasks).newTasks.get ⟨i, h⟩).scheduledFor =
        some (anchorStart uid (delayMinutes * 60000) now tasks +
          i * (delayMinutes * 60000)) := by
    intro i h
    refine hsched i _ ?_
    have h2 : i < (List.foldl (syncStep uid (delayMinutes * 60000) settings now
        (tasks.filter (fun x => x.userId == uid)))
        { tasks := tasks, newTasks := [],
          anchor := anchorStart uid (delayMinutes * 60000) now tasks,
          nextId := nextId } (reviewStream locs)).newTasks.length := by
      simpa [syncCore] using h
    rw [List.getElem?_eq_getElem h2]
    simp [syncCore, List.get_eq_getElem]
  refine ⟨hsched', ?_, ?_, ?_⟩
  · intro i h
    rw [hsched' (i + 1) h, hsched' i (by omega)]
    push_cast
    simp only [Option.getD_some]
    ring
  · intro i j hij hj
    rw [hsched' i (by omega), hsched' j hj]
    simp only [Option.getD_some]
    have hd60 : (0 : Int) < delayMinutes * 60000 := by positivity
    have hcast : (i : Int) < (j : Int) := by exact_mod_cast hij
    have := mul_lt_mul_of_pos_right hcast hd60
    omega
  · intro h0
    simpa using hsched' 0 h0

/-- Closed instance of C2: two new reviews, `delayMinutes = 10`, no prior
tasks — the two created tasks are scheduled `600000` ms apart starting at
`now`. -/
theorem monotonic_scheduling_witness :
    (0 : Int) < 10 ∧
    ((syncCore 1
        [{ locationName := "HQ", locationId := "locations/1",
           accountId := "accounts/1",
           reviews := [{ name := "reviews/1", reviewId := none,
                         starRating := "FIVE", comment := some "Great!",
                         reviewerName := none, reviewReply := none,
                         createTime := none, updateTime := none },
                       { name := "reviews/2", reviewId := none,
                         starRating := "ONE", comment := some "Bad",
                         reviewerName := none, reviewReply := none,
                         createTime := none, updateTime := none }] }]
        (10 * 60000) (normalizeSettings {}) 5000 0 []).newTasks.get
        ⟨1, by decide⟩).scheduledFor =
      some (anchorStart 1 (10 * 60000) 5000 [] + 1 * (10 * 60000)) :=
  ⟨by decide,
    (monotonic_scheduling 1
      [{ locationName := "HQ", locationId := "locations/1",
         accountId := "accounts/1",
         reviews := [{ name := "reviews/1", reviewId := none,
                       starRating := "FIVE", comment := some "Great!",
                       reviewerName := none, reviewReply := none,
                       createTime := none, updateTime := none },
                     { name := "reviews/2", reviewId := none,
                       starRating := "ONE", comment := some "Bad",
                       reviewerName := none, reviewReply := none,
                       createTime := none, updateTime := none }] }]
      10 (normalizeSettings {}) 5000 0 [] (by decide)).1 1 (by decide)⟩

/-! ### updateFirst machinery -/

theorem updateFirst_length (p : Task → Bool) (f : Task → Task)
    (l : List Task) : (updateFirst p f l).length = l.length := by
  induction l with
  | nil => rfl
  | cons t ts ih =>
      by_cases hp : p t
      · simp [updateFirst, hp]
      · simp [updateFirst, hp, ih]

/-- Every position of `updateFirst p f l` is either the original element or
`f` applied to an original element satisfying `p`. -/
theorem updateFirst_pointwise (p : Task → Bool) (f : Task → Task)
    (l : List Task) (i : Nat) :
    (updateFirst p f l)[i]? = l[i]? ∨
    ∃ x, l[i]? = some x ∧ p x = true ∧ (updateFirst p f l)[i]? = some (f x) := by
  induction l generalizing i with
  | nil => left; rfl
  | cons t ts ih =>
      by_cases hp : p t
      · cases i with
        | zero => right; exact ⟨t, by simp, hp, by simp [updateFirst, hp]⟩
        | succ n => left; simp [updateFirst, hp]
      · cases i with
        | zero => left; simp [updateFirst, hp]
        | succ n =>
            rcases ih n with h | ⟨x, hx, hpx, hfx⟩
            · left; simpa [updateFirst, hp] using h
            · right; exact ⟨x, by simpa using hx, hpx,
                by simpa [updateFirst, hp] using hfx⟩

/-- When `p` fails at position `i`, `updateFirst` leaves that position
unchanged. -/
theorem updateFirst_ne (p : Task → Bool) (f : Task → Task) (l : List Task)
    (i : Nat) (hni : ∀ y, l[i]? = some y → p y = false) :
    (updateFirst p f l)[i]? = l[i]? := by
  rcases updateFirst_pointwise p f l i with h | ⟨x, hx, hpx, _⟩
  · exact h
  · rw [hni x hx] at hpx
    exact absurd hpx (by simp)

/-- When position `i` is the only position whose element satisfies `p`,
`updateFirst` rewrites exactly that position. -/
theorem updateFirst_of_unique (p : Task → Bool) (f : Task → Task)
    (l : List Task) (i : Nat) (x : Task) (hx : l[i]? = some x)
    (hp : p x = true)
    (huniq : ∀ j y, l[j]? = some y → p y = true → j = i) :
    (updateFirst p f l)[i]? = some (f x) := by
  induction l generalizing i with
  | nil => simp at hx
  | cons t ts ih =>
      by_cases hpt : p t
      · have h0 : (0 : Nat) = i := huniq 0 t (by simp) hpt
        subst h0
        have hxt : t = x := by simpa using hx
        subst hxt
        simp [updateFirst, hpt]
      · cases i with
        | zero =>
            have hxt : t = x := by simpa using hx
            subst hxt
            exact absurd hp (by simp [hpt])
        | succ n =>
            have hx' : ts[n]? = some x := by simpa using hx
            have huniq' : ∀ j y, ts[j]? = some y → p y = true → j = n := by
              intro j y hj hpy
              have := huniq (j + 1) y (by simpa using hj) hpy
              omega
            simpa [updateFirst, hpt] using ih n hx' huniq'

/-- Positions and a projection `g` invariant under the rewrite `f` are
invariant under `updateFirst p f`. -/
theorem updateFirst_proj {β : Type} (g : Task → β) (p : Task → Bool)
    (f : Task → Task) (l : List Task)
    (hf : ∀ x, p x = true → g (f x) = g x) (i : Nat) :
    ((updateFirst p f l)[i]?).map g = (l[i]?).map g := by
  rcases updateFirst_pointwise p f l i with h | ⟨x, hx, hpx, hfx⟩
  · rw [h]
  · rw [hfx, hx]
    simp [hf x hpx]

/-! ### C3: external-reply skip precedence -/

/-- The skip-state the external-reply update establishes on the matching
task. -/
def skipStateQ (uid : Nat) (name : String) (now : Int) (t : Task) : Prop :=
  t.userId = uid ∧ t.reviewName = name ∧ t.status = .skipped ∧
  t.sentAt = some now ∧ t.error = some "Reply already exists on Google"

/-- The task store of one sync iteration is either untouched, skip-updated
for the review's name, or tone-updated for some task id; and it is
skip-updated exactly when the review carries an external reply. -/
theorem syncStep_tasks_shape (uid : Nat) (delayMs : Int)
    (settings : RawSettings) (now : Int) (ex : List Task) (acc : SyncAcc)
    (lr : LocResult × Review) :
    (lr.2.reviewReply.isSome →
      (syncStep uid delayMs settings now ex acc lr).tasks =
        skipUpdate uid lr.2.name now acc.tasks) ∧
    ((syncStep uid delayMs settings now ex acc lr).tasks = acc.tasks ∨
     ((syncStep uid delayMs settings now ex acc lr).tasks =
        skipUpdate uid lr.2.name now acc.tasks ∧
      lr.2.reviewReply.isSome = true) ∨
     ∃ tid tone, (syncStep uid delayMs settings now ex acc lr).tasks =
        toneUpdate tid tone acc.tasks) := by
  constructor
  · intro hrep
    simp [syncStep, hrep]
  · by_cases hrep : lr.2.reviewReply.isSome
    · right; left
      exact ⟨by simp [syncStep, hrep], hrep⟩
    · by_cases hgate : respondMap settings
          (bucketByRating (ratingMapOrZero lr.2.starRating))
      · rcases hex : lookupExisting lr.2.name ex with _ | et
        · left
          simp [syncStep, hrep, hgate, hex]
        · by_cases htone : et.tone ≠ jsOrStr settings.tone ""
          · right; right
            exact ⟨et.id, jsOrStr settings.tone "", by
              simp [syncStep, hrep, hgate, hex, htone]⟩
          · left
            simp [syncStep, hrep, hgate, hex, htone]
      · left
        simp [syncStep, hrep, hgate]

/-- The sync fold never changes the length of the task store. -/
theorem syncFold_tasks_length (uid : Nat) (delayMs : Int)
    (settings : RawSettings) (now : Int) (ex : List Task)
    (l : List (LocResult × Review)) (acc : SyncAcc) :
    (l.foldl (syncStep uid delayMs settings now ex) acc).tasks.length =
      acc.tasks.length := by
  induction l generalizing acc with
  | nil => rfl
  | cons hd tl ih =>
      rw [List.foldl_cons, ih]
      rcases (syncStep_tasks_shape uid delayMs settings now ex acc hd).2 with
        h | ⟨h, _⟩ | ⟨tid, tone, h⟩
      · rw [h]
      · rw [h]; exact updateFirst_length _ _ _
      · rw [h]; exact updateFirst_length _ _ _

/-- The sync fold preserves `userId` and `reviewName` at every position of
the task store. -/
theorem syncFold_key_preserved (uid : Nat) (delayMs : Int)
    (settings : RawSettings) (now : Int) (ex : List Task)
    (l : List (LocResult × Review)) (acc : SyncAcc) (i : Nat) :
    (((l.foldl (syncStep uid delayMs settings now ex) acc).tasks[i]?).map
        (fun t => (t.userId, t.reviewName))) =
      ((acc.tasks[i]?).map (fun t => (t.userId, t.reviewName))) := by
  induction l generalizing acc with
  | nil => rfl
  | cons hd tl ih =>
      rw [List.foldl_cons, ih]
      rcases (syncStep_tasks_shape uid delayMs settings now ex acc hd).2 with
        h | ⟨h, _⟩ | ⟨tid, tone, h⟩
      · rw [h]
      · rw [h]
        exact updateFirst_proj _ _ _ _ (fun x _ => by simp [skipApply]) i
      · rw [h]
        exact updateFirst_proj _ _ _ _ (fun x _ => by simp) i

/-- Once a position of the task store holds the skip-state, the rest of the
sync fold keeps it. -/
theorem syncFold_Q_preserved (uid : Nat) (delayMs : Int)
    (settings : RawSettings) (now : Int) (ex : List Task) (name : String)
    (l : List (LocResult × Review)) (acc : SyncAcc) (i : Nat) (x : Task)
    (hx : acc.tasks[i]? = some x) (hq : skipStateQ uid name now x) :
    ∃ y, (l.foldl (syncStep uid delayMs settings now ex) acc).tasks[i]? =
        some y ∧ skipStateQ uid name now y := by
  induction l generalizing acc x with
  | nil => exact ⟨x, hx, hq⟩
  | cons hd tl ih =>
      rw [List.foldl_cons]
      rcases (syncStep_tasks_shape uid delayMs settings now ex acc hd).2 with
        h | ⟨h, _⟩ | ⟨tid, tone, h⟩
      · exact ih _ x (by rw [h]; exact hx) hq
      · rcases updateFirst_pointwise
            (fun t => t.userId == uid && t.reviewName == hd.2.name)
            (skipApply now) acc.tasks i with hsame | ⟨z, hz, hpz, hfz⟩
        · refine ih _ x ?_ hq
          rw [h]
          unfold skipUpdate
          rw [hsame, hx]
        · have hzx : z = x := by rw [hx] at hz; exact (Option.some_inj.mp hz).symm
          subst hzx
          refine ih _ (skipApply now z) ?_ ?_
          · rw [h]
            unfold skipUpdate
            exact hfz
          · obtain ⟨q1, q2, q3, q4, q5⟩ := hq
            exact ⟨q1, q2, rfl, rfl, rfl⟩
      · rcases updateFirst_pointwise (fun t => t.id == tid)
            (fun t => { t with tone := tone }) acc.tasks i with
            hsame | ⟨z, hz, hpz, hfz⟩
        · refine ih _ x ?_ hq
          rw [h]
          unfold toneUpdate
          rw [hsame, hx]
        · have hzx : z = x := by rw [hx] at hz; exact (Option.some_inj.mp hz).symm
          subst hzx
          refine ih _ ({ z with tone := tone }) ?_ ?_
          · rw [h]
            unfold toneUpdate
            exact hfz
          · obtain ⟨q1, q2, q3, q4, q5⟩ := hq
            exact ⟨q1, q2, q3, q4, q5⟩

/-- C3.  For every fetched review that carries an external reply and has a
matching task for the same `(userId, reviewName)` — matching uniquely, per
the collection's unique index — the sync pass forces that task to
`skipped` regardless of its current status, stamps `sentAt` with the pass
time, and records the "Reply already exists on Google" error marker. -/
theorem skip_precedence (uid : Nat) (locs : List LocResult) (delayMs : Int)
    (settings : RawSettings) (now : Int) (nextId : Nat) (tasks : List Task)
    (lr : LocResult × Review) (hmem : lr ∈ reviewStream locs)
    (hrep : lr.2.reviewReply.isSome) (i : Nat) (x : Task)
    (hx : tasks[i]? = some x) (hkey : x.userId = uid ∧ x.reviewName = lr.2.name)
    (huniq : ∀ j y, tasks[j]? = some y → y.userId = uid →
      y.reviewName = lr.2.name → j = i) :
    ∃ y, (syncTasks uid locs delayMs settings now nextId tasks).1[i]? =
        some y ∧
      y.status = .skipped ∧ y.sentAt = some now ∧
      y.error = some "Reply already exists on Google" := by
  obtain ⟨l1, l2, hsplit⟩ := List.append_of_mem hmem
  set ex := tasks.filter (fun t => t.userId == uid) with hex
  set acc0 : SyncAcc := ⟨tasks, [], anchorStart uid delayMs now tasks, nextId⟩ with hacc0
  set acc1 := l1.foldl (syncStep uid delayMs settings now ex) acc0 with hacc1
  -- position i keeps its key through the prefix of the fold
  have hkey1 := syncFold_key_preserved uid delayMs settings now ex l1 acc0 i
  rw [← hacc1] at hkey1
  have hx0 : acc0.tasks[i]? = some x := hx
  rw [hx0] at hkey1
  obtain ⟨x1, hx1, hpx1⟩ : ∃ x1, acc1.tasks[i]? = some x1 ∧
      (x1.userId, x1.reviewName) = (x.userId, x.reviewName) := by
    cases hc : acc1.tasks[i]? with
    | none => rw [hc] at hkey1; simp at hkey1
    | some z => exact ⟨z, rfl, by rw [hc] at hkey1; simpa using hkey1⟩
  -- uniqueness of the key match also transfers
  have huniq1 : ∀ j y, acc1.tasks[j]? = some y → y.userId = uid →
      y.reviewName = lr.2.name → j = i := by
    intro j y hj hyu hyn
    have hkeyj := syncFold_key_preserved uid delayMs settings now ex l1 acc0 j
    rw [← hacc1, hj] at hkeyj
    cases hc : acc0.tasks[j]? with
    | none => rw [hc] at hkeyj; simp at hkeyj
    | some z =>
        rw [hc] at hkeyj
        have hz : y.userId = z.userId ∧ y.reviewName = z.reviewName := by
          simpa using hkeyj
        exact huniq j z hc (by rw [← hz.1]; exact hyu) (by rw [← hz.2]; exact hyn)
  -- the witness review's iteration applies the skip update at position i
  have hstep : (syncStep uid delayMs settings now ex acc1 lr).tasks =
      skipUpdate uid lr.2.name now acc1.tasks :=
    (syncStep_tasks_shape uid delayMs settings now ex acc1 lr).1 hrep
  have hpx1u : x1.userId = uid := by
    have := congrArg Prod.fst hpx1
    simpa [hkey.1] using this
  have hpx1n : x1.reviewName = lr.2.name := by
    have := congrArg Prod.snd hpx1
    simpa [hkey.2] using this
  have hskip : (skipUpdate uid lr.2.name now acc1.tasks)[i]? =
      some (skipApply now x1) := by
    apply updateFirst_of_unique _ _ _ i x1 hx1
    · simp [hpx1u, hpx1n]
    · intro j y hj hpy
      have hyu : y.userId = uid := by
        have := (Bool.and_eq_true _ _).mp hpy
        simpa using this.1
      have hyn : y.reviewName = lr.2.name := by
        have := (Bool.and_eq_true _ _).mp hpy
        simpa using this.2
      exact huniq1 j y hj hyu hyn
  -- the rest of the fold preserves the skip-state
  have hq : skipStateQ uid lr.2.name now (skipApply now x1) :=
    ⟨hpx1u, hpx1n, rfl, rfl, rfl⟩
  have hrest := syncFold_Q_preserved uid delayMs settings now ex lr.2.name l2
    (syncStep uid delayMs settings now ex acc1 lr) i (skipApply now x1)
    (by rw [hstep]; exact hskip) hq
  obtain ⟨y, hy, hyq⟩ := hrest
  refine ⟨y, ?_, hyq.2.2.1, hyq.2.2.2.1, hyq.2.2.2.2⟩
  have hfold : (syncCore uid locs delayMs settings now nextId tasks).tasks =
      ((l1 ++ lr :: l2).foldl (syncStep uid delayMs settings now ex)
        acc0).tasks := by
    rw [syncCore, ← hsplit, ← hex, ← hacc0]
  have hfold2 : ((l1 ++ lr :: l2).foldl (syncStep uid delayMs settings now ex)
      acc0).tasks = (l2.foldl (syncStep uid delayMs settings now ex)
        (syncStep uid delayMs settings now ex acc1 lr)).tasks := by
    rw [List.foldl_append, List.foldl_cons, hacc1]
  have hi : i < (syncCore uid locs delayMs settings now nextId
      tasks).tasks.length := by
    rw [hfold, hfold2, syncFold_tasks_length]
    have : i < acc1.tasks.length := by
      have := List.getElem?_eq_some.mp hx1
      exact this.1
    have hlen := syncStep_tasks_shape uid delayMs settings now ex acc1 lr
    rcases hlen.2 with h | ⟨h, _⟩ | ⟨tid, tone, h⟩
    · rwa [h]
    · rw [h]
      unfold skipUpdate
      rwa [updateFirst_length]
    · rw [h]
      unfold toneUpdate
      rwa [updateFirst_length]
  rw [syncTasks]
  rw [List.getElem?_append_left hi]
  rw [hfold, hfold2]
  exact hy

/-- Closed instance of C3: a review that already carries an external reply
forces its matching task — here one currently in `sent` — to `skipped` with
`sentAt` stamped and the marker error recorded. -/
theorem skip_precedence_witness :
    ∃ y, (syncTasks 7
        [{ locationName := "HQ", locationId := "locations/1",
           accountId := "accounts/1",
           reviews := [{ name := "reviews/1", reviewId := none,
                         starRating := "FIVE", comment := some "Great!",
                         reviewerName := none, reviewReply := some "thanks!",
                         createTime := none, updateTime := none }] }]
        900000 (normalizeSettings {}) 2000 2
        [{ id := 1, userId := 7, reviewName := "reviews/1",
           locationName := "HQ", reviewerName := "Ana", comment := "Great!",
           tone := "friendly", status := .sent, scheduledFor := some 500,
           generatedReply := some "Thank you!", sentAt := some 900,
           error := none, lastTriedAt := some 900, ratingValue := 5,
           sentiment := "positive", customerName := none, analysis := none,
           createdAt := 100 }]).1[0]? = some y ∧
      y.status = .skipped ∧ y.sentAt = some 2000 ∧
      y.error = some "Reply already exists on Google" := by
  apply skip_precedence 7 _ 900000 (normalizeSettings {}) 2000 2 _
    ({ locationName := "HQ", locationId := "locations/1",
       accountId := "accounts/1",
       reviews := [{ name := "reviews/1", reviewId := none,
                     starRating := "FIVE", comment := some "Great!",
                     reviewerName := none, reviewReply := some "thanks!",
                     createTime := none, updateTime := none }] },
     { name := "reviews/1", reviewId := none, starRating := "FIVE",
       comment := some "Great!", reviewerName := none,
       reviewReply := some "thanks!", createTime := none,
       updateTime := none })
    (by simp [reviewStream]) rfl 0
    { id := 1, userId := 7, reviewName := "reviews/1",
      locationName := "HQ", reviewerName := "Ana", comment := "Great!",
      tone := "friendly", status := .sent, scheduledFor := some 500,
      generatedReply := some "Thank you!", sentAt := some 900,
      error := none, lastTriedAt := some 900, ratingValue := 5,
      sentiment := "positive", customerName := none, analysis := none,
      createdAt := 100 }
    (by simp) (by exact ⟨rfl, rfl⟩)
  intro j y hj hyu hyn
  match j with
  | 0 => rfl
  | n + 1 => simp at hj

/-! ### C1: behaviour of `sent` tasks under later pipeline operations -/

/-- Membership version of `updateFirst_pointwise`. -/
theorem mem_updateFirst (p : Task → Bool) (f : Task → Task) (l : List Task)
    (y : Task) (hy : y ∈ updateFirst p f l) :
    y ∈ l ∨ ∃ x ∈ l, p x = true ∧ y = f x := by
  induction l with
  | nil => simp [updateFirst] at hy
  | cons t ts ih =>
      by_cases hp : p t
      · rw [updateFirst, if_pos hp] at hy
        rcases List.mem_cons.mp hy with h | h
        · exact Or.inr ⟨t, List.mem_cons_self _ _, hp, h⟩
        · exact Or.inl (List.mem_cons_of_mem _ h)
      · rw [updateFirst, if_neg hp] at hy
        rcases List.mem_cons.mp hy with h | h
        · exact Or.inl (h ▸ List.mem_cons_self _ _)
        · rcases ih h with h2 | ⟨x, hx, hpx, hyx⟩
          · exact Or.inl (List.mem_cons_of_mem _ h2)
          · exact Or.inr ⟨x, List.mem_cons_of_mem _ hx, hpx, hyx⟩

/-- `updateFirst` leaves any projection fixed by the rewrite untouched on
the whole list. -/
theorem updateFirst_map_proj {β : Type} (g : Task → β) (p : Task → Bool)
    (f : Task → Task) (l : List Task)
    (hf : ∀ x, p x = true → g (f x) = g x) :
    (updateFirst p f l).map g = l.map g := by
  induction l with
  | nil => rfl
  | cons t ts ih =>
      by_cases hp : p t
      · simp [updateFirst, hp, hf t hp]
      · simp [updateFirst, hp, ih]

/-- In a task list whose ids are pairwise distinct, two members with the
same id are the same task. -/
theorem eq_of_mem_of_id_eq (l : List Task)
    (hids : (l.map (fun t => t.id)).Nodup) (x y : Task) (hx : x ∈ l)
    (hy : y ∈ l) (hid : x.id = y.id) : x = y := by
  obtain ⟨i, hi, hxi⟩ := List.mem_iff_getElem.mp hx
  obtain ⟨j, hj, hyj⟩ := List.mem_iff_getElem.mp hy
  have hi2 : i < (List.map (fun t => t.id) l).length := by simpa using hi
  have hj2 : j < (List.map (fun t => t.id) l).length := by simpa using hj
  have hmap : (List.map (fun t => t.id) l).get ⟨i, hi2⟩ =
      (List.map (fun t => t.id) l).get ⟨j, hj2⟩ := by
    simp only [List.get_eq_getElem, List.getElem_map]
    rw [hxi, hyj, hid]
  have hij : i = j :=
    hids.getElem_inj_iff.mp (by simpa only [List.get_eq_getElem] using hmap)
  subst hij
  rw [← hxi, ← hyj]

/-- Every task the generator stage selects is one of the user's `detected`
tasks. -/
theorem mem_selectForGeneration (uid : Nat) (tasks : List Task) (t : Task)
    (ht : t ∈ selectForGeneration uid tasks) :
    t ∈ tasks ∧ t.userId = uid ∧ t.status = .detected := by
  have h1 : t ∈ (tasks.filter
      (fun t => t.userId == uid && t.status == .detected)).mergeSort
      (fun a b => a.createdAt ≤ b.createdAt) :=
    List.mem_of_mem_take ht
  have h2 := List.mem_mergeSort.mp h1
  have h3 := List.mem_filter.mp h2
  refine ⟨h3.1, ?_, ?_⟩
  · have := (Bool.and_eq_true _ _).mp h3.2
    simpa using this.1
  · have := (Bool.and_eq_true _ _).mp h3.2
    simpa using this.2

/-- Every task the dispatch stage selects is one of the user's `scheduled`
tasks that is already due. -/
theorem mem_selectForDispatch (uid : Nat) (now : Int) (tasks : List Task)
    (t : Task) (ht : t ∈ selectForDispatch uid now tasks) :
    t ∈ tasks ∧ t.userId = uid ∧ t.status = .scheduled ∧
      ∃ s, t.scheduledFor = some s ∧ s ≤ now := by
  have h1 : t ∈ (tasks.filter (fun t => t.userId == uid &&
      t.status == .scheduled &&
      match t.scheduledFor with
      | some s => decide (s ≤ now)
      | none => false)).mergeSort
      (fun a b => a.scheduledFor.getD 0 ≤ b.scheduledFor.getD 0) :=
    List.mem_of_mem_take ht
  have h2 := List.mem_mergeSort.mp h1
  have h3 := List.mem_filter.mp h2
  have h4 := (Bool.and_eq_true _ _).mp h3.2
  have h5 := (Bool.and_eq_true _ _).mp h4.1
  refine ⟨h3.1, by simpa using h5.1, by simpa using h5.2, ?_⟩
  cases hs : t.scheduledFor with
  | none => rw [hs] at h4; simp at h4
  | some s =>
      rw [hs] at h4
      exact ⟨s, rfl, by simpa using h4.2⟩

/-- A position of the task store holding a task whose id is hit by no
element of the batch is left untouched by the generator stage's fold. -/
theorem genFold_untouched (userName : String) (settings : RawSettings)
    (g : Nat → GenOutcome) (now : Int) (es : List (Nat × Task))
    (ts : List Task) (i : Nat) (x : Task) (hx : ts[i]? = some x)
    (hne : ∀ e ∈ es, e.2.id ≠ x.id) :
    (es.foldl (fun ts it => generateStep userName settings now ts it.2
      (g it.1)) ts)[i]? = some x := by
  induction es generalizing ts with
  | nil => exact hx
  | cons e es' ih =>
      rw [List.foldl_cons]
      apply ih
      · have hne0 : e.2.id ≠ x.id := hne e (List.mem_cons_self _ _)
        rw [generateStep]
        cases generatorReply _ (g e.1) with
        | ok res =>
            rw [updateFirst_ne]
            · exact hx
            · intro y hy
              rw [hx] at hy
              have : y = x := by simpa using hy.symm
              subst this
              simp
              omega
        | error m =>
            rw [updateFirst_ne]
            · exact hx
            · intro y hy
              rw [hx] at hy
              have : y = x := by simpa using hy.symm
              subst this
              simp
              intro hid
              omega
      · exact fun e2 he2 => hne e2 (List.mem_cons_of_mem _ he2)

/-- A position of the task store holding a task whose id is hit by no
element of the batch is left untouched by the dispatch stage's fold. -/
theorem dispatchFold_untouched (p : Nat → PostOutcome) (now : Int)
    (es : List (Nat × Task)) (ts : List Task) (i : Nat) (x : Task)
    (hx : ts[i]? = some x) (hne : ∀ e ∈ es, e.2.id ≠ x.id) :
    (es.foldl (fun ts it => dispatchStep now ts it.2 (p it.1)) ts)[i]? =
      some x := by
  induction es generalizing ts with
  | nil => exact hx
  | cons e es' ih =>
      rw [List.foldl_cons]
      apply ih
      · have hne0 : e.2.id ≠ x.id := hne e (List.mem_cons_self _ _)
        have hni : ∀ y, ts[i]? = some y → (y.id == e.2.id) = false := by
          intro y hy
          rw [hx] at hy
          have : y = x := by simpa using hy.symm
          subst this
          simp
          omega
        simp only [dispatchStep]
        by_cases hmiss : (e.2.generatedReply.getD "") = ""
        · rw [if_pos hmiss, updateFirst_ne _ _ _ _ hni]
          exact hx
        · rw [if_neg hmiss]
          cases p e.1 with
          | posted => rw [updateFirst_ne _ _ _ _ hni]; exact hx
          | failed m => rw [updateFirst_ne _ _ _ _ hni]; exact hx
      · exact fun e2 he2 => hne e2 (List.mem_cons_of_mem _ he2)

/-- The sync fold preserves the status at every position of the task store
when no fetched review carries an external reply. -/
theorem syncFold_status_preserved_no_reply (uid : Nat) (delayMs : Int)
    (settings : RawSettings) (now : Int) (ex : List Task)
    (l : List (LocResult × Review))
    (hnorep : ∀ lr ∈ l, lr.2.reviewReply = none) (acc : SyncAcc) (i : Nat) :
    (((l.foldl (syncStep uid delayMs settings now ex) acc).tasks[i]?).map
        (fun t => t.status)) = ((acc.tasks[i]?).map (fun t => t.status)) := by
  induction l generalizing acc with
  | nil => rfl
  | cons hd tl ih =>
      rw [List.foldl_cons,
        ih (fun lr hlr => hnorep lr (List.mem_cons_of_mem _ hlr))]
      rcases (syncStep_tasks_shape uid delayMs settings now ex acc hd).2 with
        h | ⟨h, hrep⟩ | ⟨tid, tone, h⟩
      · rw [h]
      · rw [hnorep hd (List.mem_cons_self _ _)] at hrep
        simp at hrep
      · rw [h]
        exact updateFirst_proj _ _ _ _ (fun x _ => by simp) i

/-- C1 as stated is false: the external-reply skip update of `syncTasks`
carries no status guard, so a task that already reached `sent` is moved to
`skipped` by a later sync pass in which its review carries an external
reply. -/
theorem sent_status_changed_counterexample :
    ((syncTasks 7
        [{ locationName := "HQ", locationId := "locations/1",
           accountId := "accounts/1",
           reviews := [{ name := "reviews/1", reviewId := none,
                         starRating := "FIVE", comment := some "Great!",
                         reviewerName := none, reviewReply := some "thanks!",
                         createTime := none, updateTime := none }] }]
        900000 (normalizeSettings {}) 2000 2
        [{ id := 1, userId := 7, reviewName := "reviews/1",
           locationName := "HQ", reviewerName := "Ana", comment := "Great!",
           tone := "friendly", status := .sent, scheduledFor := some 500,
           generatedReply := some "Thank you!", sentAt := some 900,
           error := none, lastTriedAt := some 900, ratingValue := 5,
           sentiment := "positive", customerName := none, analysis := none,
           createdAt := 100 }]).1.map (fun t => t.status)) = [.skipped] := by
  decide

/-- C1 amended.  Once a task is `sent`, the generator stage and the
dispatch stage never change it (its batch is drawn from `detected`
respectively `scheduled` tasks, and the generation-failure update carries a
`status ≠ sent` guard), and a sync pass whose fetched reviews carry no
external reply preserves its status; only the unguarded external-reply skip
update can move it, to `skipped`. -/
theorem sent_preservation_amended :
    (∀ (uid : Nat) (locs : List LocResult) (delayMs : Int)
        (settings : RawSettings) (now : Int) (nextId : Nat)
        (tasks : List Task) (i : Nat) (x : Task),
      (∀ lr ∈ reviewStream locs, lr.2.reviewReply = none) →
      tasks[i]? = some x → x.status = .sent →
      ∃ y, (syncTasks uid locs delayMs settings now nextId tasks).1[i]? =
          some y ∧ y.status = .sent) ∧
    (∀ (uid : Nat) (userName : String) (settings : RawSettings)
        (g : Nat → GenOutcome) (now : Int) (tasks : List Task) (i : Nat)
        (x : Task),
      ((tasks.map (fun t => t.id)).Nodup) → tasks[i]? = some x →
      x.status = .sent →
      (generateReplies uid userName settings g now tasks)[i]? = some x) ∧
    (∀ (uid : Nat) (p : Nat → PostOutcome) (now : Int) (tasks : List Task)
        (i : Nat) (x : Task),
      ((tasks.map (fun t => t.id)).Nodup) → tasks[i]? = some x →
      x.status = .sent →
      (dispatchReplies uid p now tasks)[i]? = some x) := by
  refine ⟨?_, ?_, ?_⟩
  · intro uid locs delayMs settings now nextId tasks i x hnorep hx hsent
    have hpres := syncFold_status_preserved_no_reply uid delayMs settings now
      (tasks.filter (fun t => t.userId == uid)) (reviewStream locs) hnorep
      ⟨tasks, [], anchorStart uid delayMs now tasks, nextId⟩ i
    have hx0 : (⟨tasks, [], anchorStart uid delayMs now tasks, nextId⟩ :
        SyncAcc).tasks[i]? = some x := hx
    rw [hx0] at hpres
    have hi : i < tasks.length := (List.getElem?_eq_some.mp hx).1
    have hlen : (syncCore uid locs delayMs settings now nextId
        tasks).tasks.length = tasks.length := by
      rw [syncCore]
      exact syncFold_tasks_length _ _ _ _ _ _ _
    cases hc : (syncCore uid locs delayMs settings now nextId
        tasks).tasks[i]? with
    | none =>
        have hlt : i < (syncCore uid locs delayMs settings now nextId
            tasks).tasks.length := by rw [hlen]; exact hi
        rw [List.getElem?_eq_getElem hlt] at hc
        exact absurd hc (by simp)
    | some y =>
        refine ⟨y, ?_, ?_⟩
        · rw [syncTasks, List.getElem?_append_left (by omega)]
          exact hc
        · have hc2 : (List.foldl (syncStep uid delayMs settings now
              (tasks.filter (fun t => t.userId == uid)))
              ⟨tasks, [], anchorStart uid delayMs now tasks, nextId⟩
              (reviewStream locs)).tasks[i]? = some y := hc
          rw [hc2] at hpres
          have h3 : y.status = x.status := by simpa using hpres
          rw [h3, hsent]
  · intro uid userName settings g now tasks i x hids hx hsent
    rw [generateReplies]
    apply genFold_untouched userName settings g now _ _ i x hx
    intro e he
    have hsel := List.mem_enum he
    have hmem : e.2 ∈ selectForGeneration uid tasks := by
      rw [hsel.2]
      exact List.getElem_mem _
    obtain ⟨hm, hu, hd⟩ := mem_selectForGeneration uid tasks e.2 hmem
    intro hid
    have hxmem : x ∈ tasks := by
      have := List.getElem?_eq_some.mp hx
      obtain ⟨h1, h2⟩ := this
      rw [← h2]
      exact List.getElem_mem _
    have := eq_of_mem_of_id_eq tasks hids e.2 x hm hxmem hid
    rw [this, hsent] at hd
    exact Status.noConfusion hd
  · intro uid p now tasks i x hids hx hsent
    rw [dispatchReplies]
    apply dispatchFold_untouched p now _ _ i x hx
    intro e he
    have hsel := List.mem_enum he
    have hmem : e.2 ∈ selectForDispatch uid now tasks := by
      rw [hsel.2]
      exact List.getElem_mem _
    obtain ⟨hm, hu, hd, _⟩ := mem_selectForDispatch uid now tasks e.2 hmem
    intro hid
    have hxmem : x ∈ tasks := by
      have := List.getElem?_eq_some.mp hx
      obtain ⟨h1, h2⟩ := this
      rw [← h2]
      exact List.getElem_mem _
    have := eq_of_mem_of_id_eq tasks hids e.2 x hm hxmem hid
    rw [this, hsent] at hd
    exact Status.noConfusion hd

/-- Closed instance of the amended C1: a `sent` task survives a generator
stage run over a store that also holds a `detected` task. -/
theorem sent_preservation_amended_witness :
    (generateReplies 7 "Acme" (normalizeSettings {}) (fun _ => .err "down")
        3000
        [{ id := 1, userId := 7, reviewName := "reviews/1",
           locationName := "HQ", reviewerName := "Ana", comment := "Great!",
           tone := "friendly", status := .sent, scheduledFor := some 500,
           generatedReply := some "Thank you!", sentAt := some 900,
           error := none, lastTriedAt := some 900, ratingValue := 5,
           sentiment := "positive", customerName := none, analysis := none,
           createdAt := 100 },
         { id := 2, userId := 7, reviewName := "reviews/2",
           locationName := "HQ", reviewerName := "Bo", comment := "Bad",
           tone := "friendly", status := .detected, scheduledFor := some 600,
           generatedReply := none, sentAt := none, error := none,
           lastTriedAt := none, ratingValue := 1, sentiment := "negative",
           customerName := none, analysis := none, createdAt := 200 }])[0]? =
      some
        { id := 1, userId := 7, reviewName := "reviews/1",
          locationName := "HQ", reviewerName := "Ana", comment := "Great!",
          tone := "friendly", status := .sent, scheduledFor := some 500,
          generatedReply := some "Thank you!", sentAt := some 900,
          error := none, lastTriedAt := some 900, ratingValue := 5,
          sentiment := "positive", customerName := none, analysis := none,
          createdAt := 100 } :=
  sent_preservation_amended.2.1 7 "Acme" (normalizeSettings {})
    (fun _ => .err "down") 3000 _ 0 _ (by decide) (by simp) rfl

/-! ### C8: the review-sync high-water mark -/

theorem foldlMax_init_le {α : Type} (f : α → Int) (l : List α) (b : Int) :
    b ≤ l.foldl (fun m r => max m (f r)) b := by
  induction l generalizing b with
  | nil => exact le_refl b
  | cons hd tl ih => exact le_trans (le_max_left b (f hd)) (ih _)

theorem foldlMax_mem_le {α : Type} (f : α → Int) (l : List α) (b : Int)
    (r : α) (hr : r ∈ l) : f r ≤ l.foldl (fun m r => max m (f r)) b := by
  induction l generalizing b with
  | nil => simp at hr
  | cons hd tl ih =>
      rcases List.mem_cons.mp hr with h | h
      · subst h
        exact le_trans (le_max_right b (f r)) (foldlMax_init_le f tl _)
      · exact ih _ h

theorem foldlMax_eq_or {α : Type} (f : α → Int) (l : List α) (b : Int) :
    l.foldl (fun m r => max m (f r)) b = b ∨
    ∃ r ∈ l, l.foldl (fun m r => max m (f r)) b = f r := by
  induction l generalizing b with
  | nil => exact Or.inl rfl
  | cons hd tl ih =>
      rcases ih (max b (f hd)) with h | ⟨r, hr, h⟩
      · rcases max_choice b (f hd) with hm | hm
        · left
          rw [List.foldl_cons, h, hm]
        · right
          exact ⟨hd, List.mem_cons_self _ _, by rw [List.foldl_cons, h, hm]⟩
      · right
        exact ⟨r, List.mem_cons_of_mem _ hr, by rw [List.foldl_cons, h]⟩

/-- The nested high-water fold of `fetchReviews`. -/
def hwFold (b : Int) (locs : List LocResult) : Int :=
  locs.foldl (fun m lr => lr.reviews.foldl
    (fun m r => max m (reviewUpdatedAt r)) m) b

theorem hwFold_init_le (b : Int) (locs : List LocResult) :
    b ≤ hwFold b locs := by
  induction locs generalizing b with
  | nil => exact le_refl b
  | cons hd tl ih =>
      exact le_trans (foldlMax_init_le reviewUpdatedAt hd.reviews b) (ih _)

theorem hwFold_mem_le (b : Int) (locs : List LocResult) (lr : LocResult)
    (hlr : lr ∈ locs) (r : Review) (hr : r ∈ lr.reviews) :
    reviewUpdatedAt r ≤ hwFold b locs := by
  induction locs generalizing b with
  | nil => simp at hlr
  | cons hd tl ih =>
      rcases List.mem_cons.mp hlr with h | h
      · subst h
        exact le_trans (foldlMax_mem_le reviewUpdatedAt lr.reviews b r hr)
          (hwFold_init_le _ tl)
      · exact ih _ h

theorem hwFold_eq_or (b : Int) (locs : List LocResult) :
    hwFold b locs = b ∨
    ∃ lr ∈ locs, ∃ r ∈ lr.reviews, hwFold b locs = reviewUpdatedAt r := by
  induction locs generalizing b with
  | nil => exact Or.inl rfl
  | cons hd tl ih =>
      rcases ih ((hd.reviews.foldl (fun m r => max m (reviewUpdatedAt r))
          b)) with h | ⟨lr, hlr, r, hr, h⟩
      · rcases foldlMax_eq_or reviewUpdatedAt hd.reviews b with h2 | ⟨r, hr, h2⟩
        · left
          rw [hwFold, List.foldl_cons]
          rw [hwFold] at h
          rw [h, h2]
        · right
          refine ⟨hd, List.mem_cons_self _ _, r, hr, ?_⟩
          rw [hwFold, List.foldl_cons]
          rw [hwFold] at h
          rw [h, h2]
      · right
        refine ⟨lr, List.mem_cons_of_mem _ hlr, r, hr, ?_⟩
        rw [hwFold, List.foldl_cons]
        rw [hwFold] at h
        exact h

/-- C8 as stated is false: `triggerManualRun` always rewrites the user's
settings with `normalizeSettings`, whose result object has no
`lastReviewSyncAt` key, so a manual run clears the stored high-water mark
(here from `some 1000` to absent). -/
theorem lastReviewSync_cleared_counterexample :
    ({ id := 1, name := "Acme", googleAccessToken := none,
       autoReplySettings := { enabled := some false,
                              lastReviewSyncAt := some 1000 } } :
        User).autoReplySettings.lastReviewSyncAt = some 1000 ∧
    (triggerManualRun
        { openaiKeyPresent := true
          fetch := { accountsResult := .ok [], locationsResult := .ok [],
                     pages := fun _ => [] }
          gen := fun _ => .err "unused"
          post := fun _ => .posted }
        { id := 1, name := "Acme", googleAccessToken := none,
          autoReplySettings := { enabled := some false,
                                 lastReviewSyncAt := some 1000 } }
        5000 { tasks := [], nextId := 0 }).2.1.autoReplySettings.lastReviewSyncAt
      = none :=
  ⟨rfl, rfl⟩

/-- C8 amended.  When `fetchReviews` reaches the review fetch (account and
a non-empty location list resolve) with a positive prior mark `t`, the
computed `latestReviewTimestamp` is the maximum of the fetched reviews'
update/create times and `t` — it is recorded, bounds every fetched review
time, is attained by `t` or a fetched review, and never regresses below
`t` — and a successful `runForUser` stores exactly this computed mark.
However the mark is not preserved unconditionally: `triggerManualRun` and
runs that compute no mark drop the field (see the counterexample). -/
theorem latestReviewTime_high_water (env : FetchEnv) (a : Account)
    (accs : List Account) (locations : List Location) (t : Int)
    (ha : env.accountsResult = .ok (a :: accs))
    (hl : env.locationsResult = .ok locations) (hne : locations ≠ [])
    (ht : 0 < t) :
    (∃ m, (fetchReviews env (some t)).latestReviewTime = some m ∧ t ≤ m ∧
      (∀ lr ∈ (fetchReviews env (some t)).locationsWithReviews,
        ∀ r ∈ lr.reviews, reviewUpdatedAt r ≤ m) ∧
      (m = t ∨ ∃ lr ∈ (fetchReviews env (some t)).locationsWithReviews,
        ∃ r ∈ lr.reviews, m = reviewUpdatedAt r)) ∧
    (∀ (renv : RunEnv) (u : User) (manual : Bool) (reason : String)
        (now : Int) (st : St),
      (normalizeSettings u.autoReplySettings).enabled.getD false →
      (u.googleAccessToken.getD "") ≠ "" → renv.openaiKeyPresent →
      (fetchReviews renv.fetch u.autoReplySettings.lastReviewSyncAt).account
        ≠ none →
      (runForUser renv u manual reason now
          st).2.1.autoReplySettings.lastReviewSyncAt =
        (fetchReviews renv.fetch
          u.autoReplySettings.lastReviewSyncAt).latestReviewTime) := by
  constructor
  · have hempty : locations.isEmpty = false := by
      cases locations with
      | nil => exact absurd rfl hne
      | cons x xs => rfl
    have hfr : fetchReviews env (some t) =
        { account := some a
          locationsWithReviews := batchFetchReviews a.name locations none
            env.pages
          latestReviewTime :=
            if hwFold t (batchFetchReviews a.name locations none env.pages)
                = 0 then none
            else some (hwFold t (batchFetchReviews a.name locations none
              env.pages)) } := by
      rw [fetchReviews, ha, hl]
      simp [hempty, SYNC_LOOKBACK_HOURS, hwFold]
    set locs := batchFetchReviews a.name locations none env.pages with hlocs
    have hge : t ≤ hwFold t locs := hwFold_init_le t locs
    have hnz : hwFold t locs ≠ 0 := by omega
    refine ⟨hwFold t locs, ?_, hge, ?_, ?_⟩
    · rw [hfr]
      simp [hnz]
    · intro lr hlr r hr
      rw [hfr] at hlr
      exact hwFold_mem_le t locs lr hlr r hr
    · rcases hwFold_eq_or t locs with h | ⟨lr, hlr, r, hr, h⟩
      · exact Or.inl h
      · right
        refine ⟨lr, ?_, r, hr, h⟩
        rw [hfr]
        exact hlr
  · intro renv u manual reason now st h1 h2 h3 h4
    cases hacct : (fetchReviews renv.fetch
        u.autoReplySettings.lastReviewSyncAt).account with
    | none => exact absurd hacct h4
    | some acct =>
        have h1b : u.autoReplySettings.enabled.getD false = true := by
          simpa [normalizeSettings] using h1
        cases hlt : (fetchReviews renv.fetch
            u.autoReplySettings.lastReviewSyncAt).latestReviewTime with
        | none =>
            simp [runForUser, h1b, h2, h3, hacct, hlt, normalizeSettings]
        | some m =>
            simp [runForUser, h1b, h2, h3, hacct, hlt, normalizeSettings]

/-- Closed instance of the amended C8: with a prior mark of 1000 and one
fetched review updated at 5000, the computed mark is recorded and is at
least the prior mark. -/
theorem latestReviewTime_high_water_witness :
    ∃ m, (fetchReviews
        { accountsResult := .ok [{ name := "accounts/1" }]
          locationsResult := .ok [{ name := "locations/1", title := "HQ" }]
          pages := fun _ =>
            [.ok { reviews := [{ name := "reviews/1", reviewId := none,
                                 starRating := "FIVE", comment := none,
                                 reviewerName := none, reviewReply := none,
                                 createTime := some 4000,
                                 updateTime := some 5000 }],
                   hasNext := false }] }
        (some 1000)).latestReviewTime = some m ∧ (1000 : Int) ≤ m :=
  match (latestReviewTime_high_water
      { accountsResult := .ok [{ name := "accounts/1" }]
        locationsResult := .ok [{ name := "locations/1", title := "HQ" }]
        pages := fun _ =>
          [.ok { reviews := [{ name := "reviews/1", reviewId := none,
                               starRating := "FIVE", comment := none,
                               reviewerName := none, reviewReply := none,
                               createTime := some 4000,
                               updateTime := some 5000 }],
                 hasNext := false }] }
      { name := "accounts/1" } [] [{ name := "locations/1", title := "HQ" }]
      1000 rfl rfl (by simp) (by decide)).1 with
  | ⟨m, hm, hle, _, _⟩ => ⟨m, hm, hle⟩

/-! ### C4: scheduled and sent tasks carry a non-empty generated reply -/

/-- The reply invariant: any task that is `scheduled`, `sent` or
`delivery_failed` carries a non-empty (truthy) `generatedReply`.
`delivery_failed` is included because the manual retry moves such tasks
back to `scheduled` while keeping their reply. -/
def TaskJ (t : Task) : Prop :=
  (t.status = .scheduled ∨ t.status = .sent ∨ t.status = .deliveryFailed) →
  t.generatedReply.getD "" ≠ ""

/-- Store well-formedness: task `_id`s are pairwise distinct and below the
fresh-id counter. -/
def WFSt (st : St) : Prop :=
  (st.tasks.map (fun t => t.id)).Nodup ∧ ∀ t ∈ st.tasks, t.id < st.nextId

/-- A successful generator call always returns a non-empty reply: the
generator throws on a missing or empty `reply` key. -/
theorem generatorReply_ok_reply (p : GenPayload) (o : GenOutcome)
    (r : GenResult) (h : generatorReply p o = .ok r) : r.reply ≠ "" := by
  cases o with
  | err m => simp [generatorReply] at h
  | ok parsed =>
      by_cases hr : parsed.reply = ""
      · simp [generatorReply, hr] at h
      · simp only [generatorReply, if_neg hr] at h
        injection h with h2
        rw [← h2]
        exact hr

/-- The sync fold preserves the reply invariant on the task store. -/
theorem syncFold_J (uid : Nat) (delayMs : Int) (settings : RawSettings)
    (now : Int) (ex : List Task) (l : List (LocResult × Review))
    (acc : SyncAcc) (hJ : ∀ y ∈ acc.tasks, TaskJ y) :
    ∀ y ∈ (l.foldl (syncStep uid delayMs settings now ex) acc).tasks,
      TaskJ y := by
  induction l generalizing acc with
  | nil => exact hJ
  | cons hd tl ih =>
      rw [List.foldl_cons]
      apply ih
      rcases (syncStep_tasks_shape uid delayMs settings now ex acc hd).2 with
        h | ⟨h, _⟩ | ⟨tid, tone, h⟩
      · rw [h]; exact hJ
      · rw [h]
        intro y hy
        rcases mem_updateFirst _ _ _ y hy with hmem | ⟨x, hx, _, hyx⟩
        · exact hJ y hmem
        · subst hyx
          intro htrig
          rcases htrig with h1 | h1 | h1 <;> exact Status.noConfusion h1
      · rw [h]
        intro y hy
        rcases mem_updateFirst _ _ _ y hy with hmem | ⟨x, hx, _, hyx⟩
        · exact hJ y hmem
        · subst hyx
          intro htrig
          exact hJ x hx htrig

/-- Every task created by the sync fold starts in `detected`. -/
theorem syncFold_newTasks_detected (uid : Nat) (delayMs : Int)
    (settings : RawSettings) (now : Int) (ex : List Task)
    (l : List (LocResult × Review)) (acc : SyncAcc)
    (hacc : ∀ t ∈ acc.newTasks, t.status = .detected) :
    ∀ t ∈ (l.foldl (syncStep uid delayMs settings now ex) acc).newTasks,
      t.status = .detected := by
  induction l generalizing acc with
  | nil => exact hacc
  | cons hd tl ih =>
      rw [List.foldl_cons]
      apply ih
      rcases syncStep_shape uid delayMs settings now ex acc hd with
        ⟨hn, _⟩ | ⟨hn, _⟩
      · rw [hn]; exact hacc
      · rw [hn]
        intro t ht
        rcases List.mem_append.mp ht with h | h
        · exact hacc t h
        · have : t = mkNewTask uid acc.nextId hd.1 hd.2 acc.anchor
              (jsOrStr settings.tone "") now := by simpa using h
          rw [this]
          rfl

/-- The sync fold does not change the ids of the task store. -/
theorem syncFold_ids (uid : Nat) (delayMs : Int) (settings : RawSettings)
    (now : Int) (ex : List Task) (l : List (LocResult × Review))
    (acc : SyncAcc) :
    ((l.foldl (syncStep uid delayMs settings now ex) acc).tasks.map
      (fun t => t.id)) = acc.tasks.map (fun t => t.id) := by
  induction l generalizing acc with
  | nil => rfl
  | cons hd tl ih =>
      rw [List.foldl_cons, ih]
      rcases (syncStep_tasks_shape uid delayMs settings now ex acc hd).2 with
        h | ⟨h, _⟩ | ⟨tid, tone, h⟩
      · rw [h]
      · rw [h]
        exact updateFirst_map_proj _ _ _ _ (fun x _ => rfl)
      · rw [h]
        exact updateFirst_map_proj _ _ _ _ (fun x _ => rfl)

/-- The created tasks of the sync fold take fresh, pairwise distinct ids in
`[nextId0, foldNextId)`. -/
theorem syncFold_newIds (uid : Nat) (delayMs : Int) (settings : RawSettings)
    (now : Int) (ex : List Task) (n0 : Nat)
    (l : List (LocResult × Review)) (acc : SyncAcc)
    (hn0 : n0 ≤ acc.nextId)
    (hnd : ((acc.newTasks.map (fun t => t.id))).Nodup)
    (hbound : ∀ t ∈ acc.newTasks, n0 ≤ t.id ∧ t.id < acc.nextId) :
    n0 ≤ (l.foldl (syncStep uid delayMs settings now ex) acc).nextId ∧
    ((l.foldl (syncStep uid delayMs settings now ex) acc).newTasks.map
      (fun t => t.id)).Nodup ∧
    ∀ t ∈ (l.foldl (syncStep uid delayMs settings now ex) acc).newTasks,
      n0 ≤ t.id ∧ t.id <
        (l.foldl (syncStep uid delayMs settings now ex) acc).nextId := by
  induction l generalizing acc with
  | nil => exact ⟨hn0, hnd, hbound⟩
  | cons hd tl ih =>
      rw [List.foldl_cons]
      have hshape : ((syncStep uid delayMs settings now ex acc hd).newTasks =
            acc.newTasks ∧
          (syncStep uid delayMs settings now ex acc hd).nextId =
            acc.nextId) ∨
          ((syncStep uid delayMs settings now ex acc hd).newTasks =
            acc.newTasks ++ [mkNewTask uid acc.nextId hd.1 hd.2 acc.anchor
              (jsOrStr settings.tone "") now] ∧
          (syncStep uid delayMs settings now ex acc hd).nextId =
            acc.nextId + 1) := by
        by_cases hrep : hd.2.reviewReply.isSome
        · left
          constructor <;> simp [syncStep, hrep]
        · by_cases hgate : respondMap settings
              (bucketByRating (ratingMapOrZero hd.2.starRating))
          · rcases hex2 : lookupExisting hd.2.name ex with _ | et
            · right
              constructor <;> simp [syncStep, hrep, hgate, hex2]
            · by_cases htone : et.tone ≠ jsOrStr settings.tone ""
              · left
                constructor <;> simp [syncStep, hrep, hgate, hex2, htone]
              · left
                constructor <;> simp [syncStep, hrep, hgate, hex2, htone]
          · left
            constructor <;> simp [syncStep, hrep, hgate]
      rcases hshape with ⟨hn, hi⟩ | ⟨hn, hi⟩
      · exact ih _ (by omega) (by rw [hn]; exact hnd)
          (by rw [hn, hi]; exact hbound)
      · refine ih _ (by omega) ?_ ?_
        · rw [hn]
          rw [List.map_append]
          apply List.Nodup.append hnd (by simp)
          intro a ha hb
          have ha2 : a ∈ acc.newTasks.map (fun t => t.id) := ha
          obtain ⟨t, htm, hta⟩ := List.mem_map.mp ha2
          have hb2 : a = acc.nextId := by
            simpa [mkNewTask] using hb
          have := (hbound t htm).2
          omega
        · rw [hn, hi]
          intro t ht
          rcases List.mem_append.mp ht with h | h
          · have := hbound t h
            omega
          · have : t = mkNewTask uid acc.nextId hd.1 hd.2 acc.anchor
                (jsOrStr settings.tone "") now := by simpa using h
            rw [this]
            simp [mkNewTask]
            omega

/-- The generator stage's fold preserves the reply invariant and the store
ids: a success writes a non-empty reply together with `scheduled`, a
failure writes `generation_failed`. -/
theorem genFold_J (userName : String) (settings : RawSettings)
    (g : Nat → GenOutcome) (now : Int) (es : List (Nat × Task))
    (ts : List Task) (hJ : ∀ y ∈ ts, TaskJ y) :
    (∀ y ∈ es.foldl (fun ts it => generateStep userName settings now ts it.2
        (g it.1)) ts, TaskJ y) ∧
    ((es.foldl (fun ts it => generateStep userName settings now ts it.2
        (g it.1)) ts).map (fun t => t.id)) = ts.map (fun t => t.id) := by
  induction es generalizing ts with
  | nil => exact ⟨hJ, rfl⟩
  | cons e es' ih =>
      rw [List.foldl_cons]
      have hstep : (∀ y ∈ generateStep userName settings now ts e.2 (g e.1),
            TaskJ y) ∧
          ((generateStep userName settings now ts e.2 (g e.1)).map
            (fun t => t.id)) = ts.map (fun t => t.id) := by
        cases hgen : generatorReply (genPayloadOf userName settings e.2)
            (g e.1) with
        | ok res =>
            rw [generateStep, hgen]
            constructor
            · intro y hy
              rcases mem_updateFirst _ _ _ y hy with hmem | ⟨x, hx, _, hyx⟩
              · exact hJ y hmem
              · subst hyx
                intro _
                have hne := generatorReply_ok_reply _ _ _ hgen
                simpa [genSuccessApply] using hne
            · exact updateFirst_map_proj _ _ _ _ (fun x _ => rfl)
        | error m =>
            rw [generateStep, hgen]
            constructor
            · intro y hy
              rcases mem_updateFirst _ _ _ y hy with hmem | ⟨x, hx, _, hyx⟩
              · exact hJ y hmem
              · subst hyx
                intro htrig
                rcases htrig with h1 | h1 | h1 <;>
                  exact Status.noConfusion h1
            · exact updateFirst_map_proj _ _ _ _ (fun x _ => rfl)
      obtain ⟨h1, h2⟩ := hstep
      have hrec := ih _ h1
      exact ⟨hrec.1, by rw [hrec.2, h2]⟩

/-- The dispatch stage's fold preserves the reply invariant and the store
ids, given that every batch element is a `scheduled` member of the store
with pairwise distinct batch ids. -/
theorem dispatchFold_J (p : Nat → PostOutcome) (now : Int)
    (es : List (Nat × Task)) (ts : List Task)
    (hJ : ∀ y ∈ ts, TaskJ y) (hids : (ts.map (fun t => t.id)).Nodup)
    (hsel : ∀ e ∈ es, e.2 ∈ ts ∧ e.2.status = .scheduled)
    (hnd : (es.map (fun e => e.2.id)).Nodup) :
    (∀ y ∈ es.foldl (fun ts it => dispatchStep now ts it.2 (p it.1)) ts,
      TaskJ y) ∧
    ((es.foldl (fun ts it => dispatchStep now ts it.2 (p it.1)) ts).map
      (fun t => t.id)) = ts.map (fun t => t.id) := by
  induction es generalizing ts with
  | nil => exact ⟨hJ, rfl⟩
  | cons e es' ih =>
      rw [List.foldl_cons]
      obtain ⟨hmem, hsched⟩ := hsel e (List.mem_cons_self _ _)
      have hJt : e.2.generatedReply.getD "" ≠ "" :=
        hJ e.2 hmem (Or.inl hsched)
      -- one dispatch iteration: an update by the selected task's id
      have hone : ∃ f : Task → Task,
          dispatchStep now ts e.2 (p e.1) =
            updateFirst (fun x => x.id == e.2.id) f ts ∧
          (∀ x, (f x).id = x.id) ∧
          (∀ x, x = e.2 → TaskJ (f x)) := by
        simp only [dispatchStep]
        rw [if_neg hJt]
        cases p e.1 with
        | posted =>
            refine ⟨sentApply now, rfl, fun x => rfl, ?_⟩
            intro x hx
            subst hx
            intro _
            simpa [sentApply] using hJt
        | failed m =>
            refine ⟨deliveryFailedApply m now, rfl, fun x => rfl, ?_⟩
            intro x hx
            subst hx
            intro _
            simpa [deliveryFailedApply] using hJt
      obtain ⟨f, hfeq, hfid, hfJ⟩ := hone
      have hstepJ : ∀ y ∈ dispatchStep now ts e.2 (p e.1), TaskJ y := by
        intro y hy
        rw [hfeq] at hy
        rcases mem_updateFirst _ _ _ y hy with hm | ⟨x, hx, hpx, hyx⟩
        · exact hJ y hm
        · subst hyx
          have hxid : x.id = e.2.id := by simpa using hpx
          have hxe : x = e.2 := eq_of_mem_of_id_eq ts hids x e.2 hx hmem hxid
          exact hfJ x hxe
      have hstepIds : ((dispatchStep now ts e.2 (p e.1)).map
          (fun t => t.id)) = ts.map (fun t => t.id) := by
        rw [hfeq]
        exact updateFirst_map_proj _ _ _ _ (fun x _ => hfid x)
      have hsel2 : ∀ e2 ∈ es', e2.2 ∈ dispatchStep now ts e.2 (p e.1) ∧
          e2.2.status = .scheduled := by
        intro e2 he2
        obtain ⟨hm2, hs2⟩ := hsel e2 (List.mem_cons_of_mem _ he2)
        refine ⟨?_, hs2⟩
        obtain ⟨j, hj, hje⟩ := List.mem_iff_getElem.mp hm2
        have hne2 : e2.2.id ≠ e.2.id := by
          have : e2.2.id ∈ es'.map (fun e => e.2.id) :=
            List.mem_map.mpr ⟨e2, he2, rfl⟩
          intro hcontra
          have hnd2 := List.nodup_cons.mp hnd
          exact hnd2.1
            (show e.2.id ∈ List.map (fun e => e.2.id) es' from hcontra ▸ this)
        have hjq : (dispatchStep now ts e.2 (p e.1))[j]? = some e2.2 := by
          rw [hfeq]
          rw [updateFirst_ne]
          · rw [List.getElem?_eq_getElem hj, hje]
          · intro y hy
            rw [List.getElem?_eq_getElem hj, hje] at hy
            have : y = e2.2 := by simpa using hy.symm
            subst this
            simp
            omega
        have := List.getElem?_eq_some.mp hjq
        obtain ⟨hlt, heq⟩ := this
        rw [← heq]
        exact List.getElem_mem _
      have hids2 : ((dispatchStep now ts e.2 (p e.1)).map
          (fun t => t.id)).Nodup := by
        rw [hstepIds]; exact hids
      have hrec := ih _ hstepJ hids2 hsel2 (List.nodup_cons.mp hnd).2
      exact ⟨hrec.1, by rw [hrec.2, hstepIds]⟩

/-- Transfer of store well-formedness along an id-preserving rewrite of the
task list. -/
theorem WF_of_map_id_eq (tasks1 tasks2 : List Task) (n : Nat)
    (hmap : tasks2.map (fun t => t.id) = tasks1.map (fun t => t.id))
    (h : WFSt ⟨tasks1, n⟩) : WFSt ⟨tasks2, n⟩ := by
  constructor
  · show (tasks2.map (fun t => t.id)).Nodup
    rw [hmap]
    exact h.1
  · intro t ht
    have hmem : t.id ∈ tasks2.map (fun t => t.id) :=
      List.mem_map.mpr ⟨t, ht, rfl⟩
    rw [hmap] at hmem
    obtain ⟨t1, ht1, hid⟩ := List.mem_map.mp hmem
    have := h.2 t1 ht1
    simp only [St.nextId] at this ⊢
    omega

/-- The store invariant: well-formed ids plus the reply invariant on every
task. -/
def InvSt (st : St) : Prop := WFSt st ∧ ∀ t ∈ st.tasks, TaskJ t

/-- One sync pass preserves the store invariant. -/
theorem syncTasks_preserves (uid : Nat) (locs : List LocResult)
    (delayMs : Int) (settings : RawSettings) (now : Int) (st : St)
    (hInv : InvSt st) :
    InvSt ⟨(syncTasks uid locs delayMs settings now st.nextId st.tasks).1,
           (syncTasks uid locs delayMs settings now st.nextId st.tasks).2⟩ := by
  obtain ⟨⟨hnd, hbound⟩, hJ⟩ := hInv
  have hids := syncFold_ids uid delayMs settings now
    (st.tasks.filter (fun t => t.userId == uid)) (reviewStream locs)
    ⟨st.tasks, [], anchorStart uid delayMs now st.tasks, st.nextId⟩
  have hnew := syncFold_newIds uid delayMs settings now
    (st.tasks.filter (fun t => t.userId == uid)) st.nextId
    (reviewStream locs)
    ⟨st.tasks, [], anchorStart uid delayMs now st.tasks, st.nextId⟩
    (le_refl _) (by simp) (by simp)
  have hJ2 := syncFold_J uid delayMs settings now
    (st.tasks.filter (fun t => t.userId == uid)) (reviewStream locs)
    ⟨st.tasks, [], anchorStart uid delayMs now st.tasks, st.nextId⟩ hJ
  have hdet := syncFold_newTasks_detected uid delayMs settings now
    (st.tasks.filter (fun t => t.userId == uid)) (reviewStream locs)
    ⟨st.tasks, [], anchorStart uid delayMs now st.tasks, st.nextId⟩
    (by simp)
  set accF := (reviewStream locs).foldl (syncStep uid delayMs settings now
    (st.tasks.filter (fun t => t.userId == uid)))
    ⟨st.tasks, [], anchorStart uid delayMs now st.tasks, st.nextId⟩ with haccF
  have hres1 : (syncTasks uid locs delayMs settings now st.nextId
      st.tasks).1 = accF.tasks ++ accF.newTasks := rfl
  have hres2 : (syncTasks uid locs delayMs settings now st.nextId
      st.tasks).2 = accF.nextId := rfl
  refine ⟨⟨?_, ?_⟩, ?_⟩
  · show (((syncTasks uid locs delayMs settings now st.nextId
        st.tasks).1).map (fun t => t.id)).Nodup
    rw [hres1, List.map_append]
    apply List.Nodup.append
    · rw [hids]
      exact hnd
    · exact hnew.2.1
    · intro a ha hb
      rw [hids] at ha
      obtain ⟨t0, ht0, hta⟩ := List.mem_map.mp ha
      obtain ⟨t1, ht1, htb⟩ := List.mem_map.mp hb
      have hb1 := hbound t0 ht0
      have hb2 := (hnew.2.2 t1 ht1).1
      omega
  · intro t ht
    rw [hres1] at ht
    have hgoal : t.id < accF.nextId := by
      rcases List.mem_append.mp ht with hm | hm
      · have hmem : t.id ∈ accF.tasks.map (fun t => t.id) :=
          List.mem_map.mpr ⟨t, hm, rfl⟩
        rw [hids] at hmem
        obtain ⟨t0, ht0, hid0⟩ := List.mem_map.mp hmem
        have hlt := hbound t0 ht0
        have hle := hnew.1
        omega
      · exact (hnew.2.2 t hm).2
    exact hgoal
  · intro t ht
    rw [hres1] at ht
    rcases List.mem_append.mp ht with hm | hm
    · exact hJ2 t hm
    · have := hdet t hm
      intro htrig
      rcases htrig with h1 | h1 | h1 <;>
        { rw [this] at h1; exact Status.noConfusion h1 }

/-- The generator stage preserves the reply invariant and the store ids. -/
theorem generateReplies_preserves (uid : Nat) (userName : String)
    (settings : RawSettings) (g : Nat → GenOutcome) (now : Int)
    (tasks : List Task) (hJ : ∀ y ∈ tasks, TaskJ y) :
    (∀ y ∈ generateReplies uid userName settings g now tasks, TaskJ y) ∧
    ((generateReplies uid userName settings g now tasks).map
      (fun t => t.id)) = tasks.map (fun t => t.id) :=
  genFold_J userName settings g now (selectForGeneration uid tasks).enum
    tasks hJ

theorem enumFrom_map_snd_id (n : Nat) (l : List Task) :
    ((l.enumFrom n).map (fun e => e.2.id)) = l.map (fun t => t.id) := by
  induction l generalizing n with
  | nil => rfl
  | cons hd tl ih => simp [List.enumFrom, ih]

/-- The dispatch batch has pairwise distinct ids when the store does. -/
theorem selectForDispatch_ids_nodup (uid : Nat) (now : Int)
    (tasks : List Task) (hids : (tasks.map (fun t => t.id)).Nodup) :
    ((selectForDispatch uid now tasks).map (fun t => t.id)).Nodup := by
  have hfil : ((tasks.filter (fun t => t.userId == uid &&
      t.status == .scheduled &&
      match t.scheduledFor with
      | some s => decide (s ≤ now)
      | none => false)).map (fun t => t.id)).Nodup :=
    List.Nodup.sublist (List.Sublist.map _ (List.filter_sublist _)) hids
  have hsort : (((tasks.filter (fun t => t.userId == uid &&
      t.status == .scheduled &&
      match t.scheduledFor with
      | some s => decide (s ≤ now)
      | none => false)).mergeSort
      (fun a b => a.scheduledFor.getD 0 ≤ b.scheduledFor.getD 0)).map
      (fun t => t.id)).Nodup := by
    refine (List.Perm.nodup_iff ?_).mpr hfil
    exact List.Perm.map _ (List.mergeSort_perm _ _)
  exact List.Nodup.sublist (List.Sublist.map _ (List.take_sublist _ _)) hsort

/-- The dispatch stage preserves the reply invariant and the store ids. -/
theorem dispatchReplies_preserves (uid : Nat) (p : Nat → PostOutcome)
    (now : Int) (tasks : List Task) (hJ : ∀ y ∈ tasks, TaskJ y)
    (hids : (tasks.map (fun t => t.id)).Nodup) :
    (∀ y ∈ dispatchReplies uid p now tasks, TaskJ y) ∧
    ((dispatchReplies uid p now tasks).map (fun t => t.id)) =
      tasks.map (fun t => t.id) := by
  apply dispatchFold_J p now (selectForDispatch uid now tasks).enum tasks hJ
    hids
  · intro e he
    have hsel := List.mem_enum he
    have hmem : e.2 ∈ selectForDispatch uid now tasks := by
      rw [hsel.2]
      exact List.getElem_mem _
    obtain ⟨hm, _, hs, _⟩ := mem_selectForDispatch uid now tasks e.2 hmem
    exact ⟨hm, hs⟩
  · rw [List.enum]
    rw [enumFrom_map_snd_id]
    exact selectForDispatch_ids_nodup uid now tasks hids

/-- The manual retry endpoint preserves the reply invariant and the store
ids. -/
theorem retry_preserves (uid taskId : Nat) (raw : RawSettings) (now : Int)
    (tasks : List Task) (hJ : ∀ y ∈ tasks, TaskJ y)
    (hids : (tasks.map (fun t => t.id)).Nodup) :
    (∀ y ∈ (retryAutoReplyTask uid taskId raw now tasks).2, TaskJ y) ∧
    (((retryAutoReplyTask uid taskId raw now tasks).2).map (fun t => t.id))
      = tasks.map (fun t => t.id) := by
  cases hfind : tasks.find? (fun t => t.id == taskId && t.userId == uid) with
  | none =>
      have : (retryAutoReplyTask uid taskId raw now tasks).2 = tasks := by
        simp [retryAutoReplyTask, hfind]
      rw [this]
      exact ⟨hJ, rfl⟩
  | some task =>
      have htmem := List.mem_of_find?_eq_some hfind
      have hfp := List.find?_some hfind
      have htid : task.id = taskId := by
        have := (Bool.and_eq_true _ _).mp hfp
        simpa using this.1
      by_cases hgf : task.status = .generationFailed
      · have hshape : (retryAutoReplyTask uid taskId raw now tasks).2 =
            updateFirst (fun t => t.id == taskId)
              (fun t => { t with status := .detected, error := none })
              tasks := by
          simp [retryAutoReplyTask, hfind, hgf]
        rw [hshape]
        constructor
        · intro y hy
          rcases mem_updateFirst _ _ _ y hy with hm | ⟨x, hx, _, hyx⟩
          · exact hJ y hm
          · subst hyx
            intro htrig
            rcases htrig with h1 | h1 | h1 <;> exact Status.noConfusion h1
        · exact updateFirst_map_proj _ _ _ _ (fun x _ => rfl)
      · by_cases hdf : task.status = .deliveryFailed
        · have hshape : (retryAutoReplyTask uid taskId raw now tasks).2 =
              updateFirst (fun t => t.id == taskId)
                (fun t => { t with status := .scheduled, error := none, scheduledFor := some (now + jsOrInt raw.delayMinutes DEFAULT_DELAY_MINUTES * 60000) }) tasks := by
            simp [retryAutoReplyTask, hfind, hgf, hdf]
          rw [hshape]
          constructor
          · intro y hy
            rcases mem_updateFirst _ _ _ y hy with hm | ⟨x, hx, hpx, hyx⟩
            · exact hJ y hm
            · subst hyx
              have hxid : x.id = taskId := by simpa using hpx
              have hxe : x = task := eq_of_mem_of_id_eq tasks hids x task hx
                htmem (by rw [hxid, htid])
              subst hxe
              intro _
              have := hJ x htmem (Or.inr (Or.inr hdf))
              simpa using this
          · exact updateFirst_map_proj _ _ _ _ (fun x _ => rfl)
        · have : (retryAutoReplyTask uid taskId raw now tasks).2 = tasks := by
            simp [retryAutoReplyTask, hfind, hgf, hdf]
          rw [this]
          exact ⟨hJ, rfl⟩

/-- One logical actor action on the task store: an interval/startup
per-user run, a manual trigger, or the manual retry endpoint. -/
inductive Op where
  | runUser (env : RunEnv) (u : User) (manual : Bool) (reason : String)
      (now : Int)
  | manualRun (env : RunEnv) (u : User) (now : Int)
  | retryTask (uid taskId : Nat) (raw : RawSettings) (now : Int)

/-- Effect of one operation on the task store. -/
def applyOp (st : St) : Op → St
  | .runUser env u manual reason now =>
      (runForUser env u manual reason now st).2.2
  | .manualRun env u now => (triggerManualRun env u now st).2.2
  | .retryTask uid taskId raw now =>
      { tasks := (retryAutoReplyTask uid taskId raw now st.tasks).2
        nextId := st.nextId }

/-- The empty task store. -/
def initialSt : St := { tasks := [], nextId := 0 }

/-- The store reached by a sequence of pipeline operations from the empty
store. -/
def runOps (ops : List Op) : St := ops.foldl applyOp initialSt

/-- `runForUser` leaves the store unchanged or runs the
sync/generate/dispatch chain on it. -/
theorem runForUser_st_shape (env : RunEnv) (u : User) (manual : Bool)
    (reason : String) (now : Int) (st : St) :
    (runForUser env u manual reason now st).2.2 = st ∨
    (runForUser env u manual reason now st).2.2 =
      ⟨dispatchReplies u.id env.post now (generateReplies u.id u.name
          (normalizeSettings u.autoReplySettings) env.gen now
          (syncTasks u.id (fetchReviews env.fetch
              u.autoReplySettings.lastReviewSyncAt).locationsWithReviews
            (jsOrInt (normalizeSettings u.autoReplySettings).delayMinutes 0
              * 60000)
            (normalizeSettings u.autoReplySettings) now st.nextId
            st.tasks).1),
        (syncTasks u.id (fetchReviews env.fetch
            u.autoReplySettings.lastReviewSyncAt).locationsWithReviews
          (jsOrInt (normalizeSettings u.autoReplySettings).delayMinutes 0
            * 60000)
          (normalizeSettings u.autoReplySettings) now st.nextId
          st.tasks).2⟩ := by
  by_cases h1 : (normalizeSettings u.autoReplySettings).enabled.getD false
  · by_cases h2 : (u.googleAccessToken.getD "") = ""
    · left
      simp [runForUser, h1, h2]
    · by_cases h3 : env.openaiKeyPresent
      · cases hacc : (fetchReviews env.fetch
            u.autoReplySettings.lastReviewSyncAt).account with
        | none =>
            left
            simp [runForUser, h1, h2, h3, hacc]
        | some a =>
            right
            simp [runForUser, h1, h2, h3, hacc]
      · left
        simp [runForUser, h1, h2, h3]
  · left
    simp [runForUser, h1]

/-- The generate-then-dispatch tail of one run preserves the store
invariant. -/
theorem chain_preserves (uid : Nat) (userName : String)
    (settings : RawSettings) (g : Nat → GenOutcome)
    (post : Nat → PostOutcome) (now : Int) (tasks : List Task) (n : Nat)
    (h : InvSt ⟨tasks, n⟩) :
    InvSt ⟨dispatchReplies uid post now
      (generateReplies uid userName settings g now tasks), n⟩ := by
  obtain ⟨⟨hnd, hb⟩, hJ⟩ := h
  have h2 := generateReplies_preserves uid userName settings g now tasks hJ
  have hnd2 : ((generateReplies uid userName settings g now tasks).map
      (fun t => t.id)).Nodup := by
    rw [h2.2]
    exact hnd
  have h3 := dispatchReplies_preserves uid post now _ h2.1 hnd2
  refine ⟨?_, h3.1⟩
  exact WF_of_map_id_eq tasks _ n (by rw [h3.2, h2.2]) ⟨hnd, hb⟩

/-- The full pipeline run of one user preserves the store invariant. -/
theorem runForUser_preserves (env : RunEnv) (u : User) (manual : Bool)
    (reason : String) (now : Int) (st : St) (h : InvSt st) :
    InvSt (runForUser env u manual reason now st).2.2 := by
  rcases runForUser_st_shape env u manual reason now st with hs | hs
  · rw [hs]; exact h
  · rw [hs]
    exact chain_preserves u.id u.name (normalizeSettings u.autoReplySettings)
      env.gen env.post now _ _
      (syncTasks_preserves u.id _ _ _ now st h)

/-- Every pipeline operation preserves the store invariant. -/
theorem applyOp_preserves (st : St) (op : Op) (h : InvSt st) :
    InvSt (applyOp st op) := by
  cases op with
  | runUser env u manual reason now =>
      exact runForUser_preserves env u manual reason now st h
  | manualRun env u now =>
      exact runForUser_preserves env u true "interval" now st h
  | retryTask uid taskId raw now =>
      obtain ⟨⟨hnd, hb⟩, hJ⟩ := h
      have hr := retry_preserves uid taskId raw now st.tasks hJ hnd
      refine ⟨?_, hr.1⟩
      apply WF_of_map_id_eq st.tasks _ st.nextId hr.2
      exact ⟨hnd, hb⟩

/-- C4.  In every store reachable from the empty store by pipeline
operations (per-user runs, manual triggers, manual retries), a task whose
status is `scheduled` or `sent` carries a non-empty `generatedReply`:
generation success always stores the generator's non-empty reply, the
retry transition `delivery_failed → scheduled` preserves it, and dispatch
treats an absent reply as a failure producing `delivery_failed`. -/
theorem generatedReply_nonempty_invariant (ops : List Op) :
    ∀ t ∈ (runOps ops).tasks,
      t.status = .scheduled ∨ t.status = .sent →
      t.generatedReply.getD "" ≠ "" := by
  have hInv : InvSt (runOps ops) := by
    rw [runOps]
    have hgen : ∀ st : St, InvSt st → InvSt (ops.foldl applyOp st) := by
      induction ops with
      | nil => exact fun st h => h
      | cons op ops' ih =>
          intro st h
          rw [List.foldl_cons]
          exact ih _ (applyOp_preserves st op h)
    refine hgen initialSt ⟨⟨?_, ?_⟩, ?_⟩ <;> simp [initialSt]
  intro t ht htrig
  refine hInv.2 t ht ?_
  rcases htrig with h1 | h1
  · exact Or.inl h1
  · exact Or.inr (Or.inl h1)

/-- Concrete review used by the C4 witness trace. -/
def c4Review : Review :=
  { name := "reviews/1", reviewId := none, starRating := "FIVE",
    comment := some "Great!", reviewerName := some "Ana",
    reviewReply := none, createTime := some 10, updateTime := some 20 }

/-- Concrete run environment used by the C4 witness trace. -/
def c4Env : RunEnv :=
  { openaiKeyPresent := true
    fetch := { accountsResult := .ok [{ name := "accounts/1" }]
               locationsResult := .ok [{ name := "locations/1", title := "HQ" }]
               pages := fun _ => [.ok { reviews := [c4Review], hasNext := false }] }
    gen := fun _ => .ok { reply := "Thanks!" }
    post := fun _ => .posted }

/-- Concrete user used by the C4 witness trace. -/
def c4User : User :=
  { id := 3, name := "Acme", googleAccessToken := some "tok",
    autoReplySettings := { enabled := some true } }

/-- The task the C4 witness trace creates in the sync stage. -/
def c4T1 : Task :=
  { id := 0, userId := 3, reviewName := "reviews/1", locationName := "HQ",
    reviewerName := "Ana", comment := "Great!", tone := "friendly",
    status := .detected, scheduledFor := some 1000, generatedReply := none,
    sentAt := none, error := none, lastTriedAt := none, ratingValue := 5,
    sentiment := "positive", customerName := none, analysis := none,
    createdAt := 1000 }

/-- The same task after the generator stage. -/
def c4T2 : Task :=
  { c4T1 with
      generatedReply := some "Thanks!"
      status := .scheduled
      sentiment := "neutral"
      tone := "friendly"
      analysis := some { summary := "", tone := "friendly",
                         sentiment := "neutral", addressedName := "Ana" }
      customerName := some "Ana" }

/-- The same task after the dispatch stage. -/
def c4T3 : Task :=
  { c4T2 with
      status := .sent
      sentAt := some 1000
      lastTriedAt := some 1000 }

/-- Closed instance of C4: after one full run (detect, generate, dispatch)
the resulting `sent` task carries the generator's non-empty reply. -/
theorem generatedReply_nonempty_invariant_witness :
    c4T3 ∈ (runOps [.runUser c4Env c4User false "interval" 1000]).tasks ∧
    (c4T3.status = .scheduled ∨ c4T3.status = .sent) ∧
    c4T3.generatedReply.getD "" ≠ "" := by
  have hfil1 : [c4T1].filter
      (fun t => t.userId == 3 && t.status == Status.detected) = [c4T1] := by
    decide
  have hsel : selectForGeneration 3 [c4T1] = [c4T1] := by
    simp only [selectForGeneration]
    rw [hfil1, List.mergeSort_singleton]
    rfl
  have hgen : generateReplies 3 "Acme"
      (normalizeSettings c4User.autoReplySettings) c4Env.gen 1000 [c4T1] =
      [c4T2] := by
    simp only [generateReplies]
    rw [hsel]
    decide
  have hfil2 : [c4T2].filter (fun t => t.userId == 3 &&
      t.status == Status.scheduled &&
      match t.scheduledFor with
      | some s => decide (s ≤ (1000 : Int))
      | none => false) = [c4T2] := by
    decide
  have hsel2 : selectForDispatch 3 1000 [c4T2] = [c4T2] := by
    simp only [selectForDispatch]
    rw [hfil2, List.mergeSort_singleton]
    rfl
  have hdisp : dispatchReplies 3 c4Env.post 1000 [c4T2] = [c4T3] := by
    simp only [dispatchReplies]
    rw [hsel2]
    decide
  have hshape : (runOps [.runUser c4Env c4User false "interval" 1000]).tasks =
      dispatchReplies 3 c4Env.post 1000 (generateReplies 3 "Acme"
        (normalizeSettings c4User.autoReplySettings) c4Env.gen 1000
        [c4T1]) := rfl
  have hmem : c4T3 ∈
      (runOps [.runUser c4Env c4User false "interval" 1000]).tasks := by
    rw [hshape, hgen, hdisp]
    exact List.mem_singleton.mpr rfl
  exact ⟨hmem, Or.inr rfl,
    generatedReply_nonempty_invariant _ c4T3 hmem (Or.inr rfl)⟩

end AutoReply
